import Mathlib

/-!
Verification of the oura-mcp-server core against its specification.

The TypeScript sources are embedded shallowly:
* `src/utils/encryption.ts` — AES-256-GCM token encryption (the cipher invoked
  through Node's `crypto.createCipheriv('aes-256-gcm', …)` is spelled out in
  full: AES-256 block cipher, GCM counter mode and GHASH authentication).
* `src/oauth/tokens.ts` — the token store (durable file + in-memory cache).
* `src/oauth/handler.ts` — PKCE state registry, OAuth callback validation and
  `getValidAccessToken`.
* `src/middleware` per-token rate limiter (`tokenRateLimiter`).
* `src/mcp/server.ts` — JSON-RPC dispatch for the two MCP transports.

JS strings and Buffers are represented by their byte sequences (`List Nat`,
each entry < 256); JS numbers holding epoch milliseconds by `Int`.
-/

namespace OuraMCP

/-- A byte string: the UTF-8 bytes of a JS string or the contents of a Node
`Buffer`. -/
abbrev Bytes := List Nat

deriving instance DecidableEq for Except

/-- Every entry is a real byte (< 256). -/
def BytesWF (bs : Bytes) : Prop := ∀ b ∈ bs, b < 256

instance : DecidablePred BytesWF := fun bs => List.decidableBAll _ bs

/-- Big-endian value of a byte string (`Buffer` contents read as one number,
most significant byte first). -/
def beVal : Bytes → Nat
  | [] => 0
  | b :: bs => b * 256 ^ bs.length + beVal bs

/-- Big-endian byte string of length `k` for `n % 256^k`. -/
def natToBytes : Nat → Nat → Bytes
  | 0, _ => []
  | k + 1, n => natToBytes k (n / 256) ++ [n % 256]

/-! ### AES-256 (FIPS 197), the block cipher behind `aes-256-gcm` -/

/-- The AES S-box. -/
def sbox : List Nat :=
[0x63,0x7c,0x77,0x7b,0xf2,0x6b,0x6f,0xc5,0x30,0x01,0x67,0x2b,0xfe,0xd7,0xab,0x76,
 0xca,0x82,0xc9,0x7d,0xfa,0x59,0x47,0xf0,0xad,0xd4,0xa2,0xaf,0x9c,0xa4,0x72,0xc0,
 0xb7,0xfd,0x93,0x26,0x36,0x3f,0xf7,0xcc,0x34,0xa5,0xe5,0xf1,0x71,0xd8,0x31,0x15,
 0x04,0xc7,0x23,0xc3,0x18,0x96,0x05,0x9a,0x07,0x12,0x80,0xe2,0xeb,0x27,0xb2,0x75,
 0x09,0x83,0x2c,0x1a,0x1b,0x6e,0x5a,0xa0,0x52,0x3b,0xd6,0xb3,0x29,0xe3,0x2f,0x84,
 0x53,0xd1,0x00,0xed,0x20,0xfc,0xb1,0x5b,0x6a,0xcb,0xbe,0x39,0x4a,0x4c,0x58,0xcf,
 0xd0,0xef,0xaa,0xfb,0x43,0x4d,0x33,0x85,0x45,0xf9,0x02,0x7f,0x50,0x3c,0x9f,0xa8,
 0x51,0xa3,0x40,0x8f,0x92,0x9d,0x38,0xf5,0xbc,0xb6,0xda,0x21,0x10,0xff,0xf3,0xd2,
 0xcd,0x0c,0x13,0xec,0x5f,0x97,0x44,0x17,0xc4,0xa7,0x7e,0x3d,0x64,0x5d,0x19,0x73,
 0x60,0x81,0x4f,0xdc,0x22,0x2a,0x90,0x88,0x46,0xee,0xb8,0x14,0xde,0x5e,0x0b,0xdb,
 0xe0,0x32,0x3a,0x0a,0x49,0x06,0x24,0x5c,0xc2,0xd3,0xac,0x62,0x91,0x95,0xe4,0x79,
 0xe7,0xc8,0x37,0x6d,0x8d,0xd5,0x4e,0xa9,0x6c,0x56,0xf4,0xea,0x65,0x7a,0xae,0x08,
 0xba,0x78,0x25,0x2e,0x1c,0xa6,0xb4,0xc6,0xe8,0xdd,0x74,0x1f,0x4b,0xbd,0x8b,0x8a,
 0x70,0x3e,0xb5,0x66,0x48,0x03,0xf6,0x0e,0x61,0x35,0x57,0xb9,0x86,0xc1,0x1d,0x9e,
 0xe1,0xf8,0x98,0x11,0x69,0xd9,0x8e,0x94,0x9b,0x1e,0x87,0xe9,0xce,0x55,0x28,0xdf,
 0x8c,0xa1,0x89,0x0d,0xbf,0xe6,0x42,0x68,0x41,0x99,0x2d,0x0f,0xb0,0x54,0xbb,0x16]

/-- S-box substitution of one byte. -/
def subByte (b : Nat) : Nat := sbox.getD b 0

/-- Multiplication by x in GF(2^8) modulo x^8+x^4+x^3+x+1. -/
def xtime (b : Nat) : Nat :=
  if 128 ≤ b then ((2 * b) % 256) ^^^ 0x1b else (2 * b) % 256

/-- Byte-wise xor of two byte strings. -/
def xorBytes (a b : Bytes) : Bytes := List.zipWith (· ^^^ ·) a b

/-- Rotate a 4-byte word left by one byte. -/
def rotWord (w : Bytes) : Bytes := w.drop 1 ++ w.take 1

/-- S-box substitution on each byte of a word. -/
def subWord (w : Bytes) : Bytes := w.map subByte

/-- AES round constants. -/
def rcon : List Nat := [1, 2, 4, 8, 16, 32, 64, 128, 27, 54, 108, 216, 171, 77]

/-- One step of the AES-256 key expansion: appends word `i = ws.length` to the
word list (Nk = 8). -/
def keyExpandStep (ws : List Bytes) : List Bytes :=
  let i := ws.length
  let prev := ws.getD (i - 1) []
  let base := ws.getD (i - 8) []
  let temp :=
    if i % 8 = 0 then
      xorBytes (subWord (rotWord prev)) [rcon.getD (i / 8 - 1) 0, 0, 0, 0]
    else if i % 8 = 4 then subWord prev
    else prev
  ws ++ [xorBytes base temp]

/-- The 60 expanded key words of an AES-256 key. -/
def keyWords (key : Bytes) : List Bytes :=
  keyExpandStep^[52] ((List.range 8).map fun i => (key.drop (4 * i)).take 4)

/-- Round key `r` (16 bytes) of an AES-256 key. -/
def roundKey (key : Bytes) (r : Nat) : Bytes :=
  (((keyWords key).drop (4 * r)).take 4).flatten

/-- SubBytes on the 16-byte state (column-major order). -/
def subBytesState (s : Bytes) : Bytes := s.map subByte

/-- ShiftRows on the 16-byte state: row `r` rotates left by `r`. -/
def shiftRows (s : Bytes) : Bytes :=
  (List.range 16).map fun idx =>
    s.getD (4 * ((idx / 4 + idx % 4) % 4) + idx % 4) 0

/-- MixColumns on one 4-byte column. -/
def mixColumn (a : Bytes) : Bytes :=
  let a0 := a.getD 0 0
  let a1 := a.getD 1 0
  let a2 := a.getD 2 0
  let a3 := a.getD 3 0
  [xtime a0 ^^^ (xtime a1 ^^^ a1) ^^^ a2 ^^^ a3,
   a0 ^^^ xtime a1 ^^^ (xtime a2 ^^^ a2) ^^^ a3,
   a0 ^^^ a1 ^^^ xtime a2 ^^^ (xtime a3 ^^^ a3),
   (xtime a0 ^^^ a0) ^^^ a1 ^^^ a2 ^^^ xtime a3]

/-- MixColumns on the 16-byte state. -/
def mixColumns (s : Bytes) : Bytes :=
  ((List.range 4).map fun c => mixColumn ((s.drop (4 * c)).take 4)).flatten

/-- AddRoundKey. -/
def addRoundKey (s rk : Bytes) : Bytes := xorBytes s rk

/-- One full AES round. -/
def aesRound (rk s : Bytes) : Bytes :=
  addRoundKey (mixColumns (shiftRows (subBytesState s))) rk

/-- AES-256 block encryption (14 rounds). -/
def aesEncryptBlock (key block : Bytes) : Bytes :=
  let s0 := addRoundKey block (roundKey key 0)
  let s13 := (List.range 13).foldl (fun s r => aesRound (roundKey key (r + 1)) s) s0
  addRoundKey (shiftRows (subBytesState s13)) (roundKey key 14)

/-! ### GCM (NIST SP 800-38D), as performed by `aes-256-gcm` -/

/-- The GHASH reduction constant R = 11100001 ∥ 0^120. -/
def gcmR : Nat := 0xe1000000000000000000000000000000

/-- The GHASH multiplication loop: `n` remaining iterations, accumulator `z`,
running value `v`.  Processes bit `n-1` of `x` down to bit 0 in GCM's
reflected bit order (bit 127 of the 128-bit integer first). -/
def gcmMulAux (x : Nat) : Nat → Nat → Nat → Nat
  | 0, z, _ => z
  | n + 1, z, v =>
    gcmMulAux x n (if x.testBit n then z ^^^ v else z)
      (if v.testBit 0 then (v >>> 1) ^^^ gcmR else v >>> 1)

/-- Multiplication in GF(2^128) with the GCM bit convention. -/
def gcmMul (x y : Nat) : Nat := gcmMulAux x 128 0 y

/-- Chunking worker: `f` is fuel, at least the number of chunks. -/
def chunk16Go : Nat → Bytes → List Bytes
  | _, [] => []
  | 0, bs => [bs]
  | f + 1, b :: bs => (b :: bs.take 15) :: chunk16Go f (bs.drop 15)

/-- Split a byte string into 16-byte chunks (last one possibly shorter). -/
def chunk16 (bs : Bytes) : List Bytes := chunk16Go bs.length bs

/-- A chunk as a 128-bit block, zero-padded on the right. -/
def padBlock (ch : Bytes) : Nat := beVal (ch ++ List.replicate (16 - ch.length) 0)

/-- Byte string as a list of 128-bit blocks, the last zero-padded. -/
def bytesToBlocks (bs : Bytes) : List Nat := (chunk16 bs).map padBlock

/-- GHASH over a block list with hash subkey `h`. -/
def ghash (h : Nat) (blocks : List Nat) : Nat :=
  blocks.foldl (fun y x => gcmMul h (y ^^^ x)) 0

/-- 16-byte big-endian encoding of a 128-bit block. -/
def natToBytes16 (n : Nat) : Bytes := natToBytes 16 n

/-- The GHASH subkey H = AES_K(0^128). -/
def hashKeyOf (key : Bytes) : Nat := beVal (aesEncryptBlock key (List.replicate 16 0))

/-- Increment the low 32 bits of a counter block. -/
def inc32 (n : Nat) : Nat := n / 2 ^ 32 * 2 ^ 32 + (n % 2 ^ 32 + 1) % 2 ^ 32

/-- The pre-counter block J0.  `encryption.ts` uses a 16-byte IV, so the
general (non-96-bit) branch applies: J0 = GHASH_H(IV ∥ pad ∥ len64(IV)). -/
def gcmJ0 (key iv : Bytes) : Nat :=
  if iv.length = 12 then beVal iv * 2 ^ 32 + 1
  else ghash (hashKeyOf key) (bytesToBlocks iv ++ [8 * iv.length])

/-- CTR keystream: blocks AES_K(inc32^(i+1)(J0)) for i < nblocks. -/
def ctrKeystream (key : Bytes) (j0 : Nat) (nblocks : Nat) : Bytes :=
  ((List.range nblocks).map fun i =>
    aesEncryptBlock key (natToBytes16 (inc32^[i + 1] j0))).flatten

/-- Keystream bytes used to encrypt a `len`-byte plaintext. -/
def gcmKeystream (key iv : Bytes) (len : Nat) : Bytes :=
  (ctrKeystream key (gcmJ0 key iv) ((len + 15) / 16)).take len

/-- The 128-bit authentication tag over a ciphertext (no AAD, as in
`encryption.ts`): GHASH_H(CT ∥ pad ∥ [0]_64 ∥ [len(CT)]_64) ⊕ AES_K(J0). -/
def gcmTag (key iv ct : Bytes) : Nat :=
  ghash (hashKeyOf key) (bytesToBlocks ct ++ [8 * ct.length]) ^^^
    beVal (aesEncryptBlock key (natToBytes16 (gcmJ0 key iv)))

/-- The `iv:authTag:encrypted` triple produced by `encryptToken`
(src/utils/encryption.ts lines 12-23).  The hex-encoded colon-joined string
written to disk is represented by its three decoded byte strings. -/
structure EncryptedToken where
  iv : Bytes
  authTag : Bytes
  ciphertext : Bytes
deriving DecidableEq

/-- Embeds `encryptToken` (src/utils/encryption.ts lines 12-23): AES-256-GCM
with a caller-supplied random 16-byte IV; ciphertext = plaintext ⊕ keystream;
16-byte auth tag. -/
def encryptToken (key iv token : Bytes) : EncryptedToken :=
  let ct := xorBytes token (gcmKeystream key iv token.length)
  { iv := iv, authTag := natToBytes16 (gcmTag key iv ct), ciphertext := ct }

/-- Embeds `decryptToken` (src/utils/encryption.ts lines 30-53): recomputes
the GCM tag over the ciphertext and fails (the source throws
`Failed to decrypt token: …`) unless it matches the stored tag; on a match
returns ciphertext ⊕ keystream.  The `parts.length !== 3` format check of the
source is absorbed by the `EncryptedToken` structure. -/
def decryptToken (key : Bytes) (e : EncryptedToken) : Except String Bytes :=
  if e.authTag.length ≠ 16 then
    .error "Failed to decrypt token: Invalid authentication tag length"
  else if e.authTag ≠ natToBytes16 (gcmTag key e.iv e.ciphertext) then
    .error "Failed to decrypt token: Unsupported state or unable to authenticate data"
  else .ok (xorBytes e.ciphertext (gcmKeystream key e.iv e.ciphertext.length))

/-- Tamper with one byte of a byte string: xor position `j` with mask `m`. -/
def flipByteAt (bs : Bytes) (j m : Nat) : Bytes := bs.set j (bs.getD j 0 ^^^ m)

/-! ### Token store (src/oauth/tokens.ts) -/

/-- The OAuth credential record (`OAuthTokens` in src/oura/types.ts).  String
fields are byte strings, `expires_at` is epoch milliseconds. -/
structure OAuthTokens where
  access_token : Bytes
  refresh_token : Bytes
  expires_at : Int
  token_type : Bytes
  scope : Bytes
deriving DecidableEq

/-- `TOKEN_REFRESH_BUFFER`: refresh 5 minutes before expiration. -/
def TOKEN_REFRESH_BUFFER : Int := 5 * 60 * 1000

/-- Embeds `isAccessTokenValid` (tokens.ts lines 91-98); `Date.now()` is the
explicit `now` argument. -/
def isAccessTokenValid (tokens : Option OAuthTokens) (now : Int) : Bool :=
  match tokens with
  | none => false
  | some t => now < t.expires_at

/-- Embeds `isExpiringSoon` (tokens.ts lines 105-112). -/
def isExpiringSoon (tokens : Option OAuthTokens) (now : Int) : Bool :=
  match tokens with
  | none => true
  | some t => now ≥ t.expires_at - TOKEN_REFRESH_BUFFER

/-- Embeds `hasRefreshToken` (tokens.ts lines 119-121):
`Boolean(tokens?.refresh_token)` — an empty string is falsy. -/
def hasRefreshToken (tokens : Option OAuthTokens) : Bool :=
  match tokens with
  | none => false
  | some t => !t.refresh_token.isEmpty

/-- The durable `tokens.json` record: encrypted token fields beside the
plaintext metadata (saveTokens lines 18-24). -/
structure StoredTokens where
  access_token : EncryptedToken
  refresh_token : EncryptedToken
  expires_at : Int
  token_type : Bytes
  scope : Bytes
deriving DecidableEq

/-- Module state of tokens.ts: the durable `TOKENS_FILE` plus the in-memory
`cachedTokens` variable. -/
structure TokenStoreState where
  file : Option StoredTokens
  cachedTokens : Option OAuthTokens
deriving DecidableEq

/-- Embeds `saveTokens` (tokens.ts lines 16-33).  `ivA`/`ivR` are the random
IVs drawn by `encryptToken` for the two fields; `writeOk` tells whether the
`fs.writeFile` call succeeds.  On write failure the function throws
(`Failed to save tokens: …`) and — the cache assignment coming after the
`await` — leaves `cachedTokens` untouched. -/
def saveTokens (s : TokenStoreState) (key ivA ivR : Bytes) (tokens : OAuthTokens)
    (writeOk : Bool) : Except String Unit × TokenStoreState :=
  let encryptedTokens : StoredTokens :=
    { access_token := encryptToken key ivA tokens.access_token
      refresh_token := encryptToken key ivR tokens.refresh_token
      expires_at := tokens.expires_at
      token_type := tokens.token_type
      scope := tokens.scope }
  if writeOk then
    (.ok (), { file := some encryptedTokens, cachedTokens := some tokens })
  else (.error "Failed to save tokens", s)

/-- Embeds `loadTokens` (tokens.ts lines 39-68): serves the cache when
present; otherwise reads the file — `ENOENT` (no file) returns `null`, and
ANY other failure (in particular a `decryptToken` throw) is caught by the
same `catch` block and also returns `null`. -/
def loadTokens (s : TokenStoreState) (key : Bytes) : Option OAuthTokens × TokenStoreState :=
  match s.cachedTokens with
  | some t => (some t, s)
  | none =>
    match s.file with
    | none => (none, s)
    | some enc =>
      match decryptToken key enc.access_token, decryptToken key enc.refresh_token with
      | .ok a, .ok r =>
        let tokens : OAuthTokens :=
          { access_token := a, refresh_token := r, expires_at := enc.expires_at
            token_type := enc.token_type, scope := enc.scope }
        (some tokens, { s with cachedTokens := some tokens })
      | _, _ => (none, s)

/-- Embeds `clearTokens` (tokens.ts lines 73-84): `fs.unlink` then
`cachedTokens = null`.  An `ENOENT` throw (no file) is swallowed — note that
in that case the `cachedTokens = null` line is skipped.  Any other unlink
failure (`unlinkOk = false`) rethrows. -/
def clearTokens (s : TokenStoreState) (unlinkOk : Bool) : Except String Unit × TokenStoreState :=
  match s.file with
  | none => (.ok (), s)
  | some _ =>
    if unlinkOk then (.ok (), { file := none, cachedTokens := none })
    else (.error "Failed to clear tokens", s)

/-- Token-store states reachable from process start (`cachedTokens = null`,
no token file) through the store operations. -/
inductive Reachable : TokenStoreState → Prop
  | init : Reachable { file := none, cachedTokens := none }
  | save (s : TokenStoreState) (key ivA ivR : Bytes) (t : OAuthTokens) (ok : Bool) :
      Reachable s → Reachable (saveTokens s key ivA ivR t ok).2
  | load (s : TokenStoreState) (key : Bytes) :
      Reachable s → Reachable (loadTokens s key).2
  | clear (s : TokenStoreState) (ok : Bool) :
      Reachable s → Reachable (clearTokens s ok).2

/-! ### OAuth handler (src/oauth/handler.ts) -/

/-- `STATE_EXPIRATION_MS`: generous 1-hour PKCE timeout. -/
def STATE_EXPIRATION_MS : Int := 60 * 60 * 1000

/-- One entry of the in-memory `pkceState` map (handler.ts line 22). -/
structure PkceEntry where
  codeVerifier : String
  state : String
  expiresAt : Int
deriving DecidableEq

/-- A JS `Map` with string keys, as an association list (keys unique). -/
abbrev JsMap (β : Type) := List (String × β)

/-- `Map.prototype.delete`. -/
def mapDelete {β : Type} (m : JsMap β) (k : String) : JsMap β :=
  m.filter fun p => p.1 != k

/-- `Map.prototype.set` (insertion order is irrelevant to the claims, so the
updated binding is appended). -/
def mapSet {β : Type} (m : JsMap β) (k : String) (v : β) : JsMap β :=
  mapDelete m k ++ [(k, v)]

/-- The registry effect of `handleAuthorize` (handler.ts lines 57-66): store
the generated verifier under the generated CSRF state with a 1-hour expiry.
The random `codeVerifier`/`state` values are passed in. -/
def handleAuthorizeStore (m : JsMap PkceEntry) (codeVerifier state : String)
    (now : Int) : JsMap PkceEntry :=
  mapSet m state { codeVerifier := codeVerifier, state := state
                   expiresAt := now + STATE_EXPIRATION_MS }

/-- Outcome of the callback validation phase. -/
inductive CallbackOutcome
  /-- `res.status(status).send(body)` without reaching the token exchange. -/
  | httpFailure (status : Nat) (body : String)
  /-- Validation passed: continue to `exchangeCodeForTokens code verifier`. -/
  | exchange (codeVerifier code : String)
deriving DecidableEq

/-- Embeds the validation phase of `handleCallback` (handler.ts lines
103-131): error short-circuit, parameter check, state lookup (CSRF), expiry
check, and single-use deletion.  Returns the outcome and the updated
`pkceState` registry. -/
def handleCallbackCheck (m : JsMap PkceEntry) (code state error : Option String)
    (now : Int) : CallbackOutcome × JsMap PkceEntry :=
  match error with
  | some e => (.httpFailure 400 ("Authorization failed: " ++ e), m)
  | none =>
    match code, state with
    | some c, some st =>
      match m.lookup st with
      | none => (.httpFailure 400 "Invalid state parameter (CSRF protection)", m)
      | some stored =>
        if now > stored.expiresAt then
          (.httpFailure 400 "OAuth state expired. Please restart the authorization flow.",
            mapDelete m st)
        else (.exchange stored.codeVerifier c, mapDelete m st)
    | _, _ => (.httpFailure 400 "Invalid callback parameters", m)

/-- Embeds `getValidAccessToken` (handler.ts lines 264-288).  The credential
returned by `loadTokens` and the outcome of `refreshAccessToken` (a network
interaction) are passed in. -/
def getValidAccessToken (tokens : Option OAuthTokens) (now : Int)
    (refreshResult : Except String OAuthTokens) : Except String Bytes :=
  match tokens with
  | none => .error "No OAuth tokens found. Please authenticate first."
  | some t =>
    if isAccessTokenValid (some t) now && !isExpiringSoon (some t) now then
      .ok t.access_token
    else if hasRefreshToken (some t) then
      match refreshResult with
      | .ok newTokens => .ok newTokens.access_token
      | .error _ => .error "Failed to refresh access token. Please re-authenticate."
    else
      .error "Access token expired and no refresh token available. Please re-authenticate."

/-! ### Per-token rate limiter (middleware) -/

/-- `WINDOW_MS`: 15 minutes. -/
def WINDOW_MS : Int := 15 * 60 * 1000

/-- `MAX_REQUESTS_PER_TOKEN`: 500 requests per window per token. -/
def MAX_REQUESTS_PER_TOKEN : Nat := 500

/-- One `tokenRateLimits` entry. -/
structure TokenRateLimit where
  count : Nat
  resetAt : Int
deriving DecidableEq

/-- Outcome of the middleware for one request. -/
inductive RateResult
  /-- `next()` was called: the request continues to tool dispatch. -/
  | next
  /-- 429 short-circuit carrying `retryAfter` seconds; `next()` not called. -/
  | limited (retryAfter : Int)
deriving DecidableEq

/-- `Math.ceil(a / 1000)` on integers. -/
def jsCeilDiv1000 (a : Int) : Int := -((-a) / 1000)

/-- Embeds the core of `tokenRateLimiter` (per-token branch, after the bearer
token has been extracted from the Authorization header; requests without a
token skip the limiter).  New window on first sight or when `now > resetAt`
(count restarts at 1); 429 with `retryAfter = ceil((resetAt-now)/1000)` once
`count >= 500` inside the window; otherwise increments `count`. -/
def tokenRateLimiter (m : JsMap TokenRateLimit) (token : String) (now : Int) :
    RateResult × JsMap TokenRateLimit :=
  match m.lookup token with
  | none => (.next, mapSet m token { count := 1, resetAt := now + WINDOW_MS })
  | some l =>
    if now > l.resetAt then
      (.next, mapSet m token { count := 1, resetAt := now + WINDOW_MS })
    else if l.count ≥ MAX_REQUESTS_PER_TOKEN then
      (.limited (jsCeilDiv1000 (l.resetAt - now)), m)
    else (.next, mapSet m token { l with count := l.count + 1 })

/-- Run a sequence of requests from the same bearer token through the
limiter, collecting the per-request outcomes. -/
def runRateRequests : JsMap TokenRateLimit → String → List Int →
    List RateResult × JsMap TokenRateLimit
  | m, _, [] => ([], m)
  | m, token, t :: ts =>
    let step := tokenRateLimiter m token t
    let rest := runRateRequests step.2 token ts
    (step.1 :: rest.1, rest.2)

/-! ### MCP server (src/mcp/server.ts)

The Tool Registry is an external collaborator (spec §1): the `initialize` and
`tools/list` payloads and the `executeToolCall` outcome are parameters. -/

/-- `params` of a `tools/call` request. -/
structure ToolCallParams (γ : Type) where
  name : Option String
  arguments : Option γ
deriving DecidableEq

/-- An inbound JSON-RPC envelope (fields may be absent). `id` is `none` when
the request carries no id (or `id: null`) — a notification. -/
structure JsonRpcRequest (γ : Type) where
  jsonrpc : Option String
  id : Option Int
  method : Option String
  params : Option (ToolCallParams γ)
deriving DecidableEq

/-- A JSON-RPC-framed response body. -/
inductive JsonBody (α : Type)
  | result (id : Option Int) (res : α)
  | rpcError (id : Option Int) (code : Int) (message : String) (details : String)
deriving DecidableEq

/-- What is written to the HTTP response. -/
inductive HttpReply (α : Type)
  /-- `res.status(s).end()`: a bare status, NO body. -/
  | statusEnd (status : Nat)
  /-- `res.status(s).json(body)` (or `res.json(body)`, status 200). -/
  | json (status : Nat) (body : JsonBody α)
deriving DecidableEq

/-- The JS expression `id || null` (also maps a falsy id such as 0 to null). -/
def jsIdOrNull : Option Int → Option Int
  | none => none
  | some i => if i = 0 then none else some i

/-- Embeds `handleToolsCall` (server.ts lines 350-362): missing `params` or
`params.name` throws `Missing tool name in params`; otherwise dispatches to
the Tool Registry oracle `exec`. -/
def handleToolsCall {γ α : Type} (exec : String → Option γ → Except String α) :
    Option (ToolCallParams γ) → Except String α
  | none => .error "Missing tool name in params"
  | some p =>
    match p.name with
    | none => .error "Missing tool name in params"
    | some n => exec n p.arguments

/-- Embeds `handleStreamableHTTPMessage` (server.ts lines 103-185): version
check, the notification branch (`id` absent: `res.status(204).end()` for
`notifications/initialized` and for unknown notifications alike), then method
dispatch answered synchronously on the POST response. -/
def handleStreamableHTTPMessage {γ α : Type} (initRes listRes : α)
    (exec : String → Option γ → Except String α) (req : JsonRpcRequest γ) :
    HttpReply α :=
  if req.jsonrpc ≠ some "2.0" then
    .json 400 (.rpcError (jsIdOrNull req.id) (-32600) "Invalid request" "Invalid JSON-RPC version")
  else if req.id = none then
    .statusEnd 204
  else
    match req.method with
    | some "initialize" => .json 200 (.result req.id initRes)
    | some "tools/list" => .json 200 (.result req.id listRes)
    | some "tools/call" =>
      match handleToolsCall exec req.params with
      | .ok r => .json 200 (.result req.id r)
      | .error msg => .json 500 (.rpcError req.id (-32603) msg msg)
    | m =>
      .json 400 (.rpcError req.id (-32601) "Method not found"
        ("Unknown method: " ++ m.getD "undefined"))

/-- What the classic `/message` endpoint does with a computed response. -/
inductive ClassicReply (α : Type)
  /-- Answered on the POST response only. -/
  | httpOnly (reply : HttpReply α)
  /-- Body written to the open SSE stream of `sessionId` as a `message`
  event; the POST itself gets `202` and no body. -/
  | sseThenAccept (sessionId : String) (body : JsonBody α)
deriving DecidableEq

/-- Response delivery of `handleMessage`: via the SSE stream (POST answers
202, no body) when the session has an open stream, else synchronously on the
POST response with the given status. -/
def sseDeliver {α : Type} (connections : List String) (sessionId : Option String)
    (fallbackStatus : Nat) (body : JsonBody α) : ClassicReply α :=
  match sessionId with
  | some s =>
    if connections.contains s then .sseThenAccept s body
    else .httpOnly (.json fallbackStatus body)
  | none => .httpOnly (.json fallbackStatus body)

/-- `errorMessage.includes('authenticate') ? -32000 : -32603`. -/
def errorCodeFor (msg : String) : Int :=
  if (msg.splitOn "authenticate").length ≠ 1 then -32000 else -32603

/-- Embeds `handleMessage` (server.ts lines 190-316): version check, the
notification branch (`id` absent: `res.status(202).end()`, no body, for
`notifications/initialized` and unknown notifications alike), then dispatch;
results are pushed on the session's SSE stream when one is open (the POST
gets a bare 202), else answered on the POST (200, or 500 for a caught
error); the unknown-method error is always answered directly with 400.
`connections` holds the session ids with an open `sseConnections` stream. -/
def handleMessage {γ α : Type} (initRes listRes : α)
    (exec : String → Option γ → Except String α) (connections : List String)
    (sessionId : Option String) (req : JsonRpcRequest γ) : ClassicReply α :=
  if req.jsonrpc ≠ some "2.0" then
    .httpOnly (.json 400 (.rpcError (jsIdOrNull req.id) (-32600) "Invalid request"
      "Invalid JSON-RPC version"))
  else if req.id = none then
    .httpOnly (.statusEnd 202)
  else
    match req.method with
    | some "initialize" => sseDeliver connections sessionId 200 (.result req.id initRes)
    | some "tools/list" => sseDeliver connections sessionId 200 (.result req.id listRes)
    | some "tools/call" =>
      match handleToolsCall exec req.params with
      | .ok r => sseDeliver connections sessionId 200 (.result req.id r)
      | .error msg =>
        sseDeliver connections sessionId 500 (.rpcError req.id (errorCodeFor msg) msg msg)
    | m =>
      .httpOnly (.json 400 (.rpcError req.id (-32601) "Method not found"
        ("Unknown method: " ++ m.getD "undefined")))

/-! ### Sanity checks of the cipher embedding against published vectors -/

/-- The AES-256 key 00 01 … 1f used in concrete instances below. -/
def key0 : Bytes := List.range 32

/-- The 16-byte IV 00 01 … 0f used in concrete instances below. -/
def iv0 : Bytes := List.range 16

/-- UTF-8 bytes of the token string `secret-token`. -/
def token0 : Bytes := [115, 101, 99, 114, 101, 116, 45, 116, 111, 107, 101, 110]

set_option maxRecDepth 100000 in
/-- A concrete credential used in witnesses: valid until epoch-ms 10^6. -/
def cred0 : OAuthTokens :=
  { access_token := token0, refresh_token := [114, 116], expires_at := 1000000
    token_type := [66], scope := [100] }

/-- A concrete PKCE entry used in the C4 counterexample: expired at 1000. -/
def pkceEntry0 : PkceEntry := { codeVerifier := "v0", state := "s0", expiresAt := 1000 }

/-- A stored record whose ciphertext fails the GCM integrity check under
`key0` (its auth tag is all zeros). -/
def corruptStored : StoredTokens :=
  { access_token := { iv := iv0, authTag := List.replicate 16 0, ciphertext := [0] }
    refresh_token := { iv := iv0, authTag := List.replicate 16 0, ciphertext := [0] }
    expires_at := 0, token_type := [], scope := [] }

set_option maxRecDepth 100000 in
/-- FIPS 197 appendix C.3: AES-256 of 00112233…ff under key 000102…1f. -/
theorem aes256_fips197_c3 :
    aesEncryptBlock (List.range 32)
      [0x00,0x11,0x22,0x33,0x44,0x55,0x66,0x77,0x88,0x99,0xaa,0xbb,0xcc,0xdd,0xee,0xff] =
      [0x8e,0xa2,0xb7,0xca,0x51,0x67,0x45,0xbf,0xea,0xfc,0x49,0x90,0x4b,0x49,0x60,0x89] := by
  decide

set_option maxRecDepth 100000 in
/-- `encryptToken` on a concrete key/IV/token agrees with an independent
AES-256-GCM implementation (16-byte IV, so the GHASH-based J0 branch). -/
theorem encryptToken_reference_vector :
    encryptToken key0 iv0 token0 =
      { iv := iv0,
        authTag := [195, 178, 235, 182, 23, 117, 10, 28, 233, 115, 24, 48, 91, 207, 180, 151],
        ciphertext := [20, 9, 195, 4, 92, 144, 103, 92, 242, 148, 190, 71] } := by
  decide

/-! ### C9 — validity predicates -/

/-- C9: for every non-null credential and every `now`, `isAccessTokenValid`
is true iff `now < expires_at`, and `isExpiringSoon` is true iff
`now ≥ expires_at - TOKEN_REFRESH_BUFFER` (the fixed 5-minute buffer). -/
theorem claim_C9_validity_predicates (t : OAuthTokens) (now : Int) :
    (isAccessTokenValid (some t) now = true ↔ now < t.expires_at) ∧
    (isExpiringSoon (some t) now = true ↔ now ≥ t.expires_at - TOKEN_REFRESH_BUFFER) := by
  refine ⟨?_, ?_⟩
  · show (decide (now < t.expires_at)) = true ↔ _
    exact decide_eq_true_iff
  · show (decide (now ≥ t.expires_at - TOKEN_REFRESH_BUFFER)) = true ↔ _
    exact decide_eq_true_iff

/-! ### C7 — notifications never get a JSON-RPC body -/

/-- C7: a JSON-RPC request without `id` (a notification, whatever its
method — including `notifications/initialized`) is answered with a bare
success status and no JSON-RPC body, on both the classic `/message`
transport (202) and the Streamable HTTP transport (204). -/
theorem claim_C7_notifications_no_body (γ α : Type) (initRes listRes : α)
    (exec : String → Option γ → Except String α) (connections : List String)
    (sessionId : Option String) (req : JsonRpcRequest γ)
    (hv : req.jsonrpc = some "2.0") (hid : req.id = none) :
    handleMessage initRes listRes exec connections sessionId req =
      .httpOnly (.statusEnd 202) ∧
    handleStreamableHTTPMessage initRes listRes exec req = .statusEnd 204 := by
  unfold handleMessage handleStreamableHTTPMessage
  rw [hv, hid]
  simp

/-- Witness for C7: the `notifications/initialized` notification itself. -/
theorem claim_C7_witness :
    handleMessage (γ := Unit) (α := Unit) () ()
      (fun _ _ => .error "unused") [] none
      { jsonrpc := some "2.0", id := none
        method := some "notifications/initialized", params := none } =
      .httpOnly (.statusEnd 202) ∧
    handleStreamableHTTPMessage (γ := Unit) (α := Unit) () ()
      (fun _ _ => .error "unused")
      { jsonrpc := some "2.0", id := none
        method := some "notifications/initialized", params := none } =
      .statusEnd 204 :=
  claim_C7_notifications_no_body Unit Unit () () _ [] none _ rfl rfl

/-! ### C1 — getValidAccessToken branch behaviour -/

/-- C1: `getValidAccessToken` fails with the not-authenticated error when no
credential is stored; returns the stored access token directly (no refresh)
when the credential is valid and not expiring soon; otherwise refreshes when
a refresh token exists (returning the refreshed token, or failing with the
re-authentication-required error when the refresh fails); and fails with the
re-authentication-required error when no refresh token exists.  Consequently,
provided a successful refresh yields a valid credential, every access token
it returns belongs to a credential valid at `now`. -/
theorem claim_C1_getValidAccessToken (tokens : Option OAuthTokens) (now : Int)
    (refreshResult : Except String OAuthTokens) :
    (tokens = none →
      getValidAccessToken tokens now refreshResult =
        .error "No OAuth tokens found. Please authenticate first.") ∧
    (∀ t, tokens = some t →
      isAccessTokenValid (some t) now = true → isExpiringSoon (some t) now = false →
      getValidAccessToken tokens now refreshResult = .ok t.access_token) ∧
    (∀ t, tokens = some t →
      (isAccessTokenValid (some t) now = false ∨ isExpiringSoon (some t) now = true) →
      hasRefreshToken (some t) = true →
      (∀ nt, refreshResult = .ok nt →
        getValidAccessToken tokens now refreshResult = .ok nt.access_token) ∧
      (∀ e, refreshResult = .error e →
        getValidAccessToken tokens now refreshResult =
          .error "Failed to refresh access token. Please re-authenticate.")) ∧
    (∀ t, tokens = some t →
      (isAccessTokenValid (some t) now = false ∨ isExpiringSoon (some t) now = true) →
      hasRefreshToken (some t) = false →
      getValidAccessToken tokens now refreshResult =
        .error "Access token expired and no refresh token available. Please re-authenticate.") ∧
    ((∀ nt, refreshResult = .ok nt → isAccessTokenValid (some nt) now = true) →
      ∀ tok, getValidAccessToken tokens now refreshResult = .ok tok →
      ∃ t, isAccessTokenValid (some t) now = true ∧ tok = t.access_token) := by
  refine ⟨?_, ?_, ?_, ?_, ?_⟩
  · rintro rfl; rfl
  · rintro t rfl hv he
    simp [getValidAccessToken, hv, he]
  · rintro t rfl hve hr
    constructor
    · rintro nt rfl
      rcases hve with hv | he
      · simp [getValidAccessToken, hv, hr]
      · simp [getValidAccessToken, he, hr]
    · rintro e rfl
      rcases hve with hv | he
      · simp [getValidAccessToken, hv, hr]
      · simp [getValidAccessToken, he, hr]
  · rintro t rfl hve hr
    rcases hve with hv | he
    · simp [getValidAccessToken, hv, hr]
    · simp [getValidAccessToken, he, hr]
  · intro hfresh tok hok
    rcases tokens with _ | t
    · exact absurd hok (by simp [getValidAccessToken])
    · cases hv : isAccessTokenValid (some t) now with
      | true =>
        cases he : isExpiringSoon (some t) now with
        | false =>
          refine ⟨t, hv, ?_⟩
          simp [getValidAccessToken, hv, he] at hok
          exact hok.symm
        | true =>
          cases hrt : hasRefreshToken (some t) with
          | false => simp [getValidAccessToken, he, hrt] at hok
          | true =>
            rcases refreshResult with e | nt
            · simp [getValidAccessToken, he, hrt] at hok
            · refine ⟨nt, hfresh nt rfl, ?_⟩
              simp [getValidAccessToken, he, hrt] at hok
              exact hok.symm
      | false =>
        cases hrt : hasRefreshToken (some t) with
        | false => simp [getValidAccessToken, hv, hrt] at hok
        | true =>
          rcases refreshResult with e | nt
          · simp [getValidAccessToken, hv, hrt] at hok
          · refine ⟨nt, hfresh nt rfl, ?_⟩
            simp [getValidAccessToken, hv, hrt] at hok
            exact hok.symm

/-- Witness for C1: no stored credential fails with the not-authenticated
error, and `cred0` (valid until 10^6, checked at `now = 0`) is returned
directly. -/
theorem claim_C1_witness :
    getValidAccessToken none 0 (.error "down") =
      .error "No OAuth tokens found. Please authenticate first." ∧
    getValidAccessToken (some cred0) 0 (.error "down") = .ok cred0.access_token :=
  ⟨(claim_C1_getValidAccessToken none 0 (.error "down")).1 rfl,
   (claim_C1_getValidAccessToken (some cred0) 0 (.error "down")).2.1 cred0 rfl
     (by decide) (by decide)⟩

/-! ### JsMap lemmas -/

/-- Looking a key up after deleting it finds nothing. -/
theorem lookup_mapDelete_self {β : Type} (m : JsMap β) (k : String) :
    (mapDelete m k).lookup k = none := by
  induction m with
  | nil => rfl
  | cons p m ih =>
    by_cases h : p.1 = k
    · simp [mapDelete, List.filter, h] at ih ⊢
      simpa [mapDelete] using ih
    · have hb : (p.1 != k) = true := by simpa using h
      simp only [mapDelete, List.filter, hb]
      rw [List.lookup]
      have : (k == p.1) = false := by
        simp [BEq.comm]
        exact fun hk => h hk.symm
      rw [this]
      simpa [mapDelete] using ih

/-- Prepending bindings with other keys does not change a lookup. -/
theorem lookup_append_of_ne {β : Type} (l1 l2 : List (String × β)) (k : String)
    (h : ∀ p ∈ l1, p.1 ≠ k) : (l1 ++ l2).lookup k = l2.lookup k := by
  induction l1 with
  | nil => rfl
  | cons p l1 ih =>
    have hp : (k == p.1) = false := by
      have := h p (List.mem_cons_self p l1)
      simp only [beq_eq_false_iff_ne, ne_eq]
      exact fun hk => this hk.symm
    simp only [List.cons_append, List.lookup, hp]
    exact ih fun q hq => h q (List.mem_cons_of_mem p hq)

/-- Looking up the key just set finds the new value. -/
theorem lookup_mapSet_self {β : Type} (m : JsMap β) (k : String) (v : β) :
    (mapSet m k v).lookup k = some v := by
  unfold mapSet
  rw [lookup_append_of_ne]
  · simp [List.lookup]
  · intro p hp
    have := List.of_mem_filter hp
    simpa using this

/-- Deleting the key just set removes exactly the bindings a plain delete
removes. -/
theorem mapDelete_mapSet_self {β : Type} (m : JsMap β) (k : String) (v : β) :
    mapDelete (mapSet m k v) k = mapDelete m k := by
  unfold mapSet mapDelete
  rw [List.filter_append]
  simp [mapDelete, List.filter_filter]

/-- Setting a key twice keeps only the second binding. -/
theorem mapSet_mapSet_self {β : Type} (m : JsMap β) (k : String) (v w : β) :
    mapSet (mapSet m k v) k w = mapSet m k w := by
  unfold mapSet
  rw [show mapDelete (mapDelete m k ++ [(k, v)]) k = mapDelete m k from
    mapDelete_mapSet_self m k v]

/-! ### C4 — missing vs expired state -/

/-- C4 (amended): both state-validation failures of `handleCallback` are
HTTP 400 responses that never reach the token exchange, but their bodies
differ — `Invalid state parameter (CSRF protection)` for an unknown state vs
`OAuth state expired. Please restart the authorization flow.` for an expired
one — so the caller can tell the two cases apart. -/
theorem claim_C4_state_failures :
    (∀ (m : JsMap PkceEntry) (c st : String) (now : Int),
      m.lookup st = none →
      handleCallbackCheck m (some c) (some st) none now =
        (.httpFailure 400 "Invalid state parameter (CSRF protection)", m)) ∧
    (∀ (m : JsMap PkceEntry) (c st : String) (now : Int) (entry : PkceEntry),
      m.lookup st = some entry → now > entry.expiresAt →
      handleCallbackCheck m (some c) (some st) none now =
        (.httpFailure 400 "OAuth state expired. Please restart the authorization flow.",
          mapDelete m st)) ∧
    "Invalid state parameter (CSRF protection)" ≠
      "OAuth state expired. Please restart the authorization flow." := by
  refine ⟨?_, ?_, by decide⟩
  · intro m c st now h
    simp only [handleCallbackCheck, h]
  · intro m c st now entry h hexp
    simp only [handleCallbackCheck, h]
    simp [hexp]

/-- Counterexample for C4 as stated: with the same state string `s0` queried
at `now = 2000`, the not-found case and the expired case (entry expired at
1000) produce observably different failure bodies. -/
theorem claim_C4_counterexample :
    (handleCallbackCheck [] (some "c") (some "s0") none 2000).1 =
      .httpFailure 400 "Invalid state parameter (CSRF protection)" ∧
    (handleCallbackCheck [("s0", pkceEntry0)] (some "c") (some "s0") none 2000).1 =
      .httpFailure 400 "OAuth state expired. Please restart the authorization flow." ∧
    (handleCallbackCheck [] (some "c") (some "s0") none 2000).1 ≠
      (handleCallbackCheck [("s0", pkceEntry0)] (some "c") (some "s0") none 2000).1 := by
  decide

/-- Witness for C4: both failure branches exercised at concrete inputs. -/
theorem claim_C4_witness :
    handleCallbackCheck [] (some "c") (some "s1") none 0 =
      (.httpFailure 400 "Invalid state parameter (CSRF protection)", []) ∧
    handleCallbackCheck [("s0", pkceEntry0)] (some "c") (some "s0") none 2000 =
      (.httpFailure 400 "OAuth state expired. Please restart the authorization flow.",
        mapDelete [("s0", pkceEntry0)] "s0") :=
  ⟨claim_C4_state_failures.1 [] "c" "s1" 0 (by decide),
   claim_C4_state_failures.2.1 [("s0", pkceEntry0)] "c" "s0" 2000 pkceEntry0
     (by decide) (by decide)⟩

/-! ### C5 — single-use consumption, expiry removal -/

/-- C5: consuming a PKCE state is single-use — after a successful consume
the same state is reported as not found (the CSRF failure), at any later
time; and an entry stored by `handleAuthorize` at `t` (1-hour expiry),
consumed at `t + 61min`, yields the expired failure while still being
removed from the registry. -/
theorem claim_C5_consume_single_use :
    (∀ (m : JsMap PkceEntry) (c st : String) (now : Int) (v c' : String)
      (m' : JsMap PkceEntry) (c2 : String) (now2 : Int),
      handleCallbackCheck m (some c) (some st) none now = (.exchange v c', m') →
      (handleCallbackCheck m' (some c2) (some st) none now2).1 =
        .httpFailure 400 "Invalid state parameter (CSRF protection)") ∧
    (∀ (m : JsMap PkceEntry) (verifier st c : String) (t : Int),
      handleCallbackCheck (handleAuthorizeStore m verifier st t)
          (some c) (some st) none (t + 3660000) =
        (.httpFailure 400 "OAuth state expired. Please restart the authorization flow.",
          mapDelete (handleAuthorizeStore m verifier st t) st) ∧
      (mapDelete (handleAuthorizeStore m verifier st t) st).lookup st = none) := by
  constructor
  · intro m c st now v c' m' c2 now2 h
    have hm : m' = mapDelete m st := by
      cases hl : m.lookup st with
      | none =>
        simp only [handleCallbackCheck, hl] at h
        simp [Prod.ext_iff] at h
      | some entry =>
        simp only [handleCallbackCheck, hl] at h
        by_cases hexp : now > entry.expiresAt
        · simp [hexp] at h
        · simp [hexp] at h
          exact h.2.symm
    subst hm
    simp only [handleCallbackCheck, lookup_mapDelete_self]
  · intro m verifier st c t
    have hl : (handleAuthorizeStore m verifier st t).lookup st =
        some { codeVerifier := verifier, state := st, expiresAt := t + STATE_EXPIRATION_MS } :=
      lookup_mapSet_self ..
    have hexp : t + 3660000 > t + STATE_EXPIRATION_MS := by
      unfold STATE_EXPIRATION_MS; omega
    refine ⟨?_, lookup_mapDelete_self ..⟩
    simp only [handleCallbackCheck, hl]
    simp [hexp]

/-- Witness for C5: a live entry (`expiresAt = 100`) consumed at `now = 50`
succeeds; re-consuming the same state afterwards reports the CSRF failure;
and the stored-then-expired scenario at concrete `t = 0`. -/
theorem claim_C5_witness :
    (handleCallbackCheck
        (mapDelete [("s0", PkceEntry.mk "v0" "s0" 100)] "s0")
        (some "c2") (some "s0") none 99).1 =
      .httpFailure 400 "Invalid state parameter (CSRF protection)" ∧
    handleCallbackCheck (handleAuthorizeStore [] "v0" "s0" 0)
        (some "c") (some "s0") none 3660000 =
      (.httpFailure 400 "OAuth state expired. Please restart the authorization flow.",
        mapDelete (handleAuthorizeStore [] "v0" "s0" 0) "s0") :=
  ⟨claim_C5_consume_single_use.1 [("s0", PkceEntry.mk "v0" "s0" 100)]
      "c" "s0" 50 "v0" "c" _ "c2" 99 (by decide),
   ((claim_C5_consume_single_use.2 [] "v0" "s0" "c" 0).1.trans (by norm_num))⟩

/-! ### C8 — clearTokens -/

/-- In every reachable store state, a populated cache implies a present
file: the cache is only ever filled by a successful save (which writes the
file) or by a successful load (which read it). -/
theorem reachable_file_none_cache_none (s : TokenStoreState) (h : Reachable s) :
    s.file = none → s.cachedTokens = none := by
  induction h with
  | init => intro; rfl
  | save s key ivA ivR t ok _ ih =>
    cases ok with
    | true => simp [saveTokens]
    | false => simpa [saveTokens] using ih
  | load s key _ ih =>
    cases hc : s.cachedTokens with
    | some t =>
      intro hf
      have := ih ((by simpa [loadTokens, hc] using hf : s.file = none))
      rw [hc] at this
      simpa [loadTokens, hc] using this
    | none =>
      cases hf : s.file with
      | none => simpa [loadTokens, hc, hf] using ih
      | some enc =>
        cases ha : decryptToken key enc.access_token with
        | error e => simpa [loadTokens, hc, hf, ha] using ih
        | ok a =>
          cases hr : decryptToken key enc.refresh_token with
          | error e => simpa [loadTokens, hc, hf, ha, hr] using ih
          | ok r => simp [loadTokens, hc, hf, ha, hr]
  | clear s ok _ ih =>
    cases hf : s.file with
    | none => simpa [clearTokens, hf] using ih
    | some enc =>
      cases ok with
      | true => simp [clearTokens, hf]
      | false => simpa [clearTokens, hf] using ih

/-- C8: `clearTokens` is idempotent — with no stored file it succeeds without
touching the state (`ENOENT` is swallowed) — and after any completed (non-
throwing) clear on a reachable state both the durable record and the
in-memory cache are absent. -/
theorem claim_C8_clear (s : TokenStoreState) (hs : Reachable s) (ok : Bool) :
    (s.file = none → clearTokens s ok = (.ok (), s) ∧ s.cachedTokens = none) ∧
    (∀ s', clearTokens s ok = (.ok (), s') →
      s'.file = none ∧ s'.cachedTokens = none) := by
  constructor
  · intro hf
    exact ⟨by simp [clearTokens, hf], reachable_file_none_cache_none s hs hf⟩
  · intro s' h
    cases hf : s.file with
    | none =>
      rw [show clearTokens s ok = (.ok (), s) from by simp [clearTokens, hf]] at h
      have hss : s = s' := by simpa [Prod.ext_iff] using h
      subst hss
      exact ⟨hf, reachable_file_none_cache_none s hs hf⟩
    | some enc =>
      cases ok with
      | true =>
        have : s' = { file := none, cachedTokens := none } := by
          simp [clearTokens, hf, Prod.ext_iff] at h
          exact h.symm
        simp [this]
      | false => simp [clearTokens, hf, Prod.ext_iff] at h

/-- Witness for C8: clearing the initial (empty) store succeeds and leaves
the credential state absent. -/
theorem claim_C8_witness :
    clearTokens { file := none, cachedTokens := none } true =
      (.ok (), { file := none, cachedTokens := none }) ∧
    ({ file := none, cachedTokens := none } : TokenStoreState).cachedTokens = none :=
  (claim_C8_clear { file := none, cachedTokens := none } Reachable.init true).1 rfl

/-! ### C10 — save then load -/

/-- C10: after a successful `saveTokens t`, a `loadTokens` returns exactly
`t` from the in-memory cache: the result does not depend on the durable file
contents `f` nor on the decryption key `key'` (no file read, no decryption),
and the state is unchanged. -/
theorem claim_C10_save_then_load (s : TokenStoreState) (key ivA ivR : Bytes)
    (t : OAuthTokens) (s' : TokenStoreState)
    (h : saveTokens s key ivA ivR t true = (.ok (), s'))
    (f : Option StoredTokens) (key' : Bytes) :
    loadTokens { file := f, cachedTokens := s'.cachedTokens } key' =
      (some t, { file := f, cachedTokens := s'.cachedTokens }) := by
  have hc : s'.cachedTokens = some t := by
    simp [saveTokens, Prod.ext_iff] at h
    rw [← h]
  rw [hc]
  simp [loadTokens]

/-- Witness for C10: saving `cred0` over the empty store, then loading with
a different key (and, per the theorem, any file contents) yields `cred0`. -/
theorem claim_C10_witness :
    loadTokens { file := none, cachedTokens :=
        ((saveTokens { file := none, cachedTokens := none } [] [] [] cred0 true).2).cachedTokens }
      [9, 9] =
      (some cred0, { file := none, cachedTokens :=
        ((saveTokens { file := none, cachedTokens := none } [] [] [] cred0 true).2).cachedTokens }) :=
  claim_C10_save_then_load { file := none, cachedTokens := none } [] [] [] cred0
    ((saveTokens { file := none, cachedTokens := none } [] [] [] cred0 true).2)
    rfl none [9, 9]

/-! ### C3 — decryption failure on load -/

/-- C3 (amended): when the stored record's ciphertext fails the integrity
check, `decryptToken` itself throws a decryption error, but `loadTokens`
catches every load failure and returns `null` — the very value returned when
no record exists — so the caller cannot distinguish corrupt storage from
never-authenticated. -/
theorem claim_C3_load_decrypt_failure (key : Bytes) (st : StoredTokens) (e : String)
    (h : decryptToken key st.access_token = .error e) :
    (loadTokens { file := some st, cachedTokens := none } key).1 = none ∧
    (loadTokens { file := none, cachedTokens := none } key).1 = none ∧
    (loadTokens { file := some st, cachedTokens := none } key).1 =
      (loadTokens { file := none, cachedTokens := none } key).1 := by
  have h1 : (loadTokens { file := some st, cachedTokens := none } key).1 = none := by
    cases hr : decryptToken key st.refresh_token <;>
      simp [loadTokens, h, hr]
  exact ⟨h1, rfl, by rw [h1]; rfl⟩

set_option maxRecDepth 100000 in
/-- Counterexample for C3 as stated: under `key0`, loading the concrete
corrupt record (auth tag zeroed) returns `none` — `decryptToken` does fail
with a decryption error, but the load result is identical to the absent
case, so no `DecryptionError` surfaces to the caller. -/
theorem claim_C3_counterexample :
    decryptToken key0 corruptStored.access_token =
      .error "Failed to decrypt token: Unsupported state or unable to authenticate data" ∧
    (loadTokens { file := some corruptStored, cachedTokens := none } key0).1 = none ∧
    (loadTokens { file := none, cachedTokens := none } key0).1 = none ∧
    (loadTokens { file := some corruptStored, cachedTokens := none } key0).1 =
      (loadTokens { file := none, cachedTokens := none } key0).1 := by
  refine ⟨by decide, by decide, rfl, by decide⟩

set_option maxRecDepth 100000 in
/-- Witness for C3's amended statement at the concrete corrupt record. -/
theorem claim_C3_witness :
    (loadTokens { file := some corruptStored, cachedTokens := none } key0).1 = none ∧
    (loadTokens { file := none, cachedTokens := none } key0).1 = none :=
  ⟨(claim_C3_load_decrypt_failure key0 corruptStored
      "Failed to decrypt token: Unsupported state or unable to authenticate data"
      (by decide)).1,
   (claim_C3_load_decrypt_failure key0 corruptStored
      "Failed to decrypt token: Unsupported state or unable to authenticate data"
      (by decide)).2.1⟩

/-! ### C6 — per-token rate limiter -/

/-- `Math.ceil(a/1000)` is between 0 and 900 for `a` between 0 and 900000. -/
theorem jsCeilDiv1000_bounds (a : Int) (h0 : 0 ≤ a) (h1 : a ≤ 900000) :
    0 ≤ jsCeilDiv1000 a ∧ jsCeilDiv1000 a ≤ 900 := by
  unfold jsCeilDiv1000
  constructor <;> omega

/-- `runRateRequests` over a concatenation. -/
theorem runRateRequests_append (token : String) (l1 l2 : List Int) :
    ∀ m, runRateRequests m token (l1 ++ l2) =
      ((runRateRequests m token l1).1 ++
          (runRateRequests (runRateRequests m token l1).2 token l2).1,
        (runRateRequests (runRateRequests m token l1).2 token l2).2) := by
  induction l1 with
  | nil => intro m; simp [runRateRequests]
  | cons t l1 ih =>
    intro m
    rw [List.cons_append]
    simp only [runRateRequests]
    rw [ih]
    rfl

/-- Requests inside the current window pass while the counter stays at or
below the ceiling: all of them call `next()` and the counter just counts. -/
theorem runRate_window_pass (token : String) (ts : List Int) :
    ∀ (m : JsMap TokenRateLimit) (c : Nat) (R : Int),
    m.lookup token = some { count := c, resetAt := R } →
    c + ts.length ≤ MAX_REQUESTS_PER_TOKEN →
    (∀ t ∈ ts, t ≤ R) →
    (runRateRequests m token ts).1 = List.replicate ts.length .next ∧
    (runRateRequests m token ts).2.lookup token =
      some { count := c + ts.length, resetAt := R } := by
  induction ts with
  | nil =>
    intro m c R hl _ _
    simpa [runRateRequests] using hl
  | cons t ts ih =>
    intro m c R hl hc ht
    have hM : MAX_REQUESTS_PER_TOKEN = 500 := rfl
    have hstep : tokenRateLimiter m token t =
        (.next, mapSet m token { count := c + 1, resetAt := R }) := by
      have hnow : ¬ t > R := by
        have := ht t (List.mem_cons_self t ts)
        omega
      have hcap : ¬ c ≥ MAX_REQUESTS_PER_TOKEN := by
        simp only [List.length_cons] at hc
        omega
      simp [tokenRateLimiter, hl, hnow, hcap]
    have hrest := ih (mapSet m token { count := c + 1, resetAt := R }) (c + 1) R
      (lookup_mapSet_self ..)
      (by simp only [List.length_cons] at hc; omega)
      (fun u hu => ht u (List.mem_cons_of_mem t hu))
    refine ⟨?_, ?_⟩
    · simp only [runRateRequests, hstep, List.length_cons, List.replicate_succ]
      exact congrArg (RateResult.next :: ·) hrest.1
    · simp only [runRateRequests, hstep, List.length_cons]
      rw [show c + (ts.length + 1) = c + 1 + ts.length from by omega]
      exact hrest.2

/-- C6: the per-bearer-token guard resets the counter to 1 whenever `now` is
past the entry's reset time; and, starting fresh, 500 requests inside one
15-minute window all pass through (`next()` is called) while the 501st
request in the same window is short-circuited with the rate-limit fault
(no tool dispatch, the middleware answers 429 instead of calling `next()`)
whose `retryAfter` equals `ceil((resetAt - now)/1000)` and lies between 0
and 900. -/
theorem claim_C6_rate_limiter :
    (∀ (m : JsMap TokenRateLimit) (token : String) (now : Int) (l : TokenRateLimit),
      m.lookup token = some l → now > l.resetAt →
      tokenRateLimiter m token now =
        (.next, mapSet m token { count := 1, resetAt := now + WINDOW_MS })) ∧
    (∀ (token : String) (t1 : Int) (ts : List Int) (tl : Int),
      ts.length = 499 →
      (∀ t ∈ ts, t ≤ t1 + WINDOW_MS) →
      t1 ≤ tl → tl ≤ t1 + WINDOW_MS →
      (runRateRequests [] token (t1 :: ts ++ [tl])).1 =
        List.replicate 500 .next ++
          [.limited (jsCeilDiv1000 (t1 + WINDOW_MS - tl))] ∧
      0 ≤ jsCeilDiv1000 (t1 + WINDOW_MS - tl) ∧
      jsCeilDiv1000 (t1 + WINDOW_MS - tl) ≤ 900) := by
  constructor
  · intro m token now l hl hnow
    simp [tokenRateLimiter, hl, hnow]
  · intro token t1 ts tl hlen hts htl1 htl2
    have hW : WINDOW_MS = (900000 : Int) := rfl
    have hM : MAX_REQUESTS_PER_TOKEN = 500 := rfl
    have hbounds := jsCeilDiv1000_bounds (t1 + WINDOW_MS - tl)
      (by omega) (by omega)
    refine ⟨?_, hbounds.1, hbounds.2⟩
    have hstep1 : tokenRateLimiter [] token t1 =
        (.next, mapSet [] token { count := 1, resetAt := t1 + WINDOW_MS }) := by
      simp [tokenRateLimiter, List.lookup]
    have hpass := runRate_window_pass token ts
      (mapSet [] token { count := 1, resetAt := t1 + WINDOW_MS }) 1 (t1 + WINDOW_MS)
      (lookup_mapSet_self ..) (by omega) hts
    have hlookup := hpass.2
    rw [hlen] at hlookup
    have hlast : tokenRateLimiter
        (runRateRequests (mapSet [] token { count := 1, resetAt := t1 + WINDOW_MS })
          token ts).2 token tl =
        (.limited (jsCeilDiv1000 (t1 + WINDOW_MS - tl)),
          (runRateRequests (mapSet [] token { count := 1, resetAt := t1 + WINDOW_MS })
            token ts).2) := by
      have hnow : ¬ tl > t1 + WINDOW_MS := by omega
      have hcap : (1 + 499 : Nat) ≥ MAX_REQUESTS_PER_TOKEN := by omega
      simp [tokenRateLimiter, hlookup, hnow, hcap]
    show (runRateRequests [] token (t1 :: (ts ++ [tl]))).1 = _
    simp only [runRateRequests, hstep1]
    rw [runRateRequests_append]
    simp only [runRateRequests, hlast, hpass.1, hlen]
    conv_rhs => rw [show (500 : Nat) = 499 + 1 from rfl, List.replicate_succ, List.cons_append]

/-- Witness for C6: counter reset at a concrete expired entry, and the
500-pass / 501st-limited scenario with all 501 requests at time 0
(`retryAfter = ceil(900000/1000) = 900`). -/
theorem claim_C6_witness :
    tokenRateLimiter [("tok", { count := 7, resetAt := 10 })] "tok" 11 =
      (.next, mapSet [("tok", { count := 7, resetAt := 10 })] "tok"
        { count := 1, resetAt := 11 + WINDOW_MS }) ∧
    (runRateRequests [] "tok" ((0 : Int) :: List.replicate 499 (0 : Int) ++ [(0 : Int)])).1 =
      List.replicate 500 .next ++ [.limited (jsCeilDiv1000 (0 + WINDOW_MS - 0))] ∧
    0 ≤ jsCeilDiv1000 (0 + WINDOW_MS - 0) ∧
    jsCeilDiv1000 (0 + WINDOW_MS - 0) ≤ 900 :=
  ⟨claim_C6_rate_limiter.1 [("tok", { count := 7, resetAt := 10 })] "tok" 11
      { count := 7, resetAt := 10 } (by decide) (by decide),
   claim_C6_rate_limiter.2 "tok" 0 (List.replicate 499 0) 0
      (List.length_replicate 499 0)
      (by
        intro t ht
        rw [List.eq_of_mem_replicate ht]
        have hW : WINDOW_MS = (900000 : Int) := rfl
        omega)
      (by omega)
      (by
        have hW : WINDOW_MS = (900000 : Int) := rfl
        omega)⟩

/-! ### C2 development, part 1: byte strings and big-endian values -/

/-- `natToBytes` always produces `k` bytes. -/
theorem natToBytes_length (k n : Nat) : (natToBytes k n).length = k := by
  induction k generalizing n with
  | zero => rfl
  | succ k ih => simp [natToBytes, ih]

/-- `natToBytes` produces well-formed bytes. -/
theorem natToBytes_wf (k n : Nat) : BytesWF (natToBytes k n) := by
  induction k generalizing n with
  | zero => intro b hb; cases hb
  | succ k ih =>
    intro b hb
    simp only [natToBytes, List.mem_append, List.mem_singleton] at hb
    rcases hb with hb | rfl
    · exact ih _ b hb
    · exact Nat.mod_lt _ (by omega)

/-- `beVal` of a snoc. -/
theorem beVal_append_singleton (l : Bytes) (b : Nat) :
    beVal (l ++ [b]) = beVal l * 256 + b := by
  induction l with
  | nil => simp [beVal]
  | cons a l ih =>
    simp only [List.cons_append, beVal, List.append_eq, ih]
    rw [show (l ++ [b]).length = l.length + 1 from by simp,
      Nat.pow_succ]
    ring

/-- `beVal` inverts `natToBytes` modulo the range. -/
theorem beVal_natToBytes (k n : Nat) : beVal (natToBytes k n) = n % 256 ^ k := by
  induction k generalizing n with
  | zero => simp [natToBytes, beVal, Nat.mod_one]
  | succ k ih =>
    rw [show natToBytes (k + 1) n = natToBytes k (n / 256) ++ [n % 256] from rfl,
      beVal_append_singleton, ih]
    rw [Nat.pow_succ, Nat.mul_comm (256 ^ k) 256, Nat.mod_mul]
    ring

/-- A well-formed byte string's value is bounded. -/
theorem beVal_lt (l : Bytes) (h : BytesWF l) : beVal l < 256 ^ l.length := by
  induction l with
  | nil => simp [beVal]
  | cons b l ih =>
    have hb : b < 256 := h b (List.mem_cons_self b l)
    have hl : beVal l < 256 ^ l.length := ih fun c hc => h c (List.mem_cons_of_mem b hc)
    simp only [beVal, List.length_cons]
    calc b * 256 ^ l.length + beVal l
        < b * 256 ^ l.length + 256 ^ l.length := by omega
      _ = (b + 1) * 256 ^ l.length := by ring
      _ ≤ 256 * 256 ^ l.length := by
          exact Nat.mul_le_mul_right _ (by omega)
      _ = 256 ^ (l.length + 1) := by rw [Nat.pow_succ]; ring

/-- `beVal` is injective on well-formed byte strings of equal length. -/
theorem beVal_inj (a : Bytes) : ∀ (b : Bytes), BytesWF a → BytesWF b →
    a.length = b.length → beVal a = beVal b → a = b := by
  induction a with
  | nil =>
    intro b _ _ hlen _
    exact (List.eq_nil_of_length_eq_zero hlen.symm).symm ▸ rfl
  | cons x a ih =>
    intro b hwa hwb hlen hval
    cases b with
    | nil => simp at hlen
    | cons y b =>
      simp only [List.length_cons, Nat.succ.injEq] at hlen
      have hxa : BytesWF a := fun c hc => hwa c (List.mem_cons_of_mem x hc)
      have hyb : BytesWF b := fun c hc => hwb c (List.mem_cons_of_mem y hc)
      have hba : beVal a < 256 ^ a.length := beVal_lt a hxa
      have hbb : beVal b < 256 ^ b.length := beVal_lt b hyb
      simp only [beVal, hlen] at hval
      have hxy : x = y := by
        have h1 : (x * 256 ^ b.length + beVal a) / 256 ^ b.length = x := by
          rw [Nat.mul_comm, Nat.mul_add_div (Nat.pos_pow_of_pos _ (by omega))]
          rw [Nat.div_eq_of_lt (hlen ▸ hba)]
          omega
        have h2 : (y * 256 ^ b.length + beVal b) / 256 ^ b.length = y := by
          rw [Nat.mul_comm, Nat.mul_add_div (Nat.pos_pow_of_pos _ (by omega))]
          rw [Nat.div_eq_of_lt hbb]
          omega
        rw [← h1, ← h2, hval]
      subst hxy
      have hab : beVal a = beVal b := by omega
      rw [ih b hxa hyb hlen hab]

/-- `natToBytes16` is injective below 2^128. -/
theorem natToBytes16_inj (a b : Nat) (ha : a < 2 ^ 128) (hb : b < 2 ^ 128)
    (h : natToBytes16 a = natToBytes16 b) : a = b := by
  have hp : (256 : Nat) ^ 16 = 2 ^ 128 := by norm_num
  have ha' : a % 256 ^ 16 = a := Nat.mod_eq_of_lt (hp ▸ ha)
  have hb' : b % 256 ^ 16 = b := Nat.mod_eq_of_lt (hp ▸ hb)
  have := congrArg beVal h
  rwa [natToBytes16, natToBytes16, beVal_natToBytes, beVal_natToBytes, ha', hb'] at this

/-! ### C2 development, part 2: xor on byte strings -/

/-- Length of a byte-wise xor. -/
theorem xorBytes_length (a b : Bytes) :
    (xorBytes a b).length = min a.length b.length := by
  simp [xorBytes]

/-- Xoring with the same keystream twice gives back the plaintext. -/
theorem xorBytes_cancel (a : Bytes) : ∀ (b : Bytes), a.length ≤ b.length →
    xorBytes (xorBytes a b) b = a := by
  induction a with
  | nil => intro b _; rfl
  | cons x a ih =>
    intro b hlen
    cases b with
    | nil => simp at hlen
    | cons y b =>
      simp only [xorBytes, List.zipWith_cons_cons]
      rw [Nat.xor_assoc, Nat.xor_self, Nat.xor_zero]
      exact congrArg (x :: ·) (ih b (by simpa using hlen))

/-- Xor of well-formed byte strings is well-formed. -/
theorem xorBytes_wf (a : Bytes) : ∀ (b : Bytes), BytesWF a → BytesWF b →
    BytesWF (xorBytes a b) := by
  induction a with
  | nil => intro b _ _ c hc; cases hc
  | cons x a ih =>
    intro b hwa hwb c hc
    cases b with
    | nil => cases hc
    | cons y b =>
      simp only [xorBytes, List.zipWith_cons_cons, List.mem_cons] at hc
      rcases hc with rfl | hc
      · exact Nat.xor_lt_two_pow (n := 8)
          (hwa x (List.mem_cons_self x a)) (hwb y (List.mem_cons_self y b))
      · exact ih b (fun d hd => hwa d (List.mem_cons_of_mem x hd))
          (fun d hd => hwb d (List.mem_cons_of_mem y hd)) c hc

/-! ### C2 development, part 3: chunking -/

/-- The fuel of `chunk16Go` is irrelevant once it covers the list. -/
theorem chunk16Go_fuel (f : Nat) : ∀ (f' : Nat) (bs : Bytes),
    bs.length ≤ f → bs.length ≤ f' → chunk16Go f bs = chunk16Go f' bs := by
  induction f with
  | zero =>
    intro f' bs h _
    have : bs = [] := List.eq_nil_of_length_eq_zero (by omega)
    subst this
    cases f' <;> rfl
  | succ f ih =>
    intro f' bs h h'
    cases bs with
    | nil => cases f' <;> rfl
    | cons b bs =>
      cases f' with
      | zero => simp at h'
      | succ f' =>
        simp only [chunk16Go]
        refine congrArg _ (ih f' (bs.drop 15) ?_ ?_) <;>
          simp only [List.length_drop, List.length_cons] at h h' ⊢ <;> omega

/-- Unfolding equation for `chunk16`. -/
theorem chunk16_cons (b : Nat) (bs : Bytes) :
    chunk16 (b :: bs) = (b :: bs.take 15) :: chunk16 (bs.drop 15) := by
  unfold chunk16
  rw [show (b :: bs).length = bs.length + 1 from rfl]
  simp only [chunk16Go]
  exact congrArg _ (chunk16Go_fuel bs.length _ (bs.drop 15)
    (by simp [List.length_drop]) (by simp [List.length_drop]))

/-- Chunks of a well-formed byte string are well-formed and at most 16 bytes
long. -/
theorem chunk16_mem (n : Nat) : ∀ (bs : Bytes), bs.length ≤ n → BytesWF bs →
    ∀ ch ∈ chunk16 bs, BytesWF ch ∧ ch.length ≤ 16 := by
  induction n with
  | zero =>
    intro bs h _ ch hch
    have : bs = [] := List.eq_nil_of_length_eq_zero (by omega)
    subst this
    cases hch
  | succ n ih =>
    intro bs hlen hwf ch hch
    cases bs with
    | nil => cases hch
    | cons b bs =>
      rw [chunk16_cons] at hch
      rcases List.mem_cons.mp hch with rfl | hch
      · constructor
        · intro c hc
          rcases List.mem_cons.mp hc with rfl | hc
          · exact hwf c (List.mem_cons_self c bs)
          · exact hwf c (List.mem_cons_of_mem b (List.mem_of_mem_take hc))
        · simp only [List.length_cons, List.length_take]
          omega
      · refine ih (bs.drop 15) ?_ ?_ ch hch
        · simp only [List.length_drop, List.length_cons] at hlen ⊢; omega
        · exact fun c hc => hwf c (List.mem_cons_of_mem b (List.mem_of_mem_drop hc))

/-- Blocks of a well-formed byte string are 128-bit values. -/
theorem bytesToBlocks_lt (bs : Bytes) (h : BytesWF bs) :
    ∀ x ∈ bytesToBlocks bs, x < 2 ^ 128 := by
  intro x hx
  simp only [bytesToBlocks, List.mem_map] at hx
  obtain ⟨ch, hch, rfl⟩ := hx
  obtain ⟨hwf, hle⟩ := chunk16_mem bs.length bs (Nat.le_refl _) h ch hch
  have hwp : BytesWF (ch ++ List.replicate (16 - ch.length) 0) := by
    intro c hc
    rcases List.mem_append.mp hc with hc | hc
    · exact hwf c hc
    · rw [List.eq_of_mem_replicate hc]; omega
  have := beVal_lt _ hwp
  have hlen : (ch ++ List.replicate (16 - ch.length) 0).length = 16 := by
    simp [List.length_append]
    omega
  rw [hlen] at this
  calc padBlock ch < 256 ^ 16 := this
    _ = 2 ^ 128 := by norm_num

/-! ### C2 development, part 4: AES output shape -/

/-- Looking up a default-0 position of a well-formed byte string gives a
byte. -/
theorem getD_lt_of_wf (s : Bytes) (h : BytesWF s) (i : Nat) : s.getD i 0 < 256 := by
  rw [List.getD_eq_getElem?_getD]
  cases hg : s[i]? with
  | none => simp
  | some v => simpa using h v (List.getElem?_mem hg)

set_option maxRecDepth 4000 in
/-- Every S-box output is a byte. -/
theorem subByte_lt (b : Nat) : subByte b < 256 := by
  have hs : ∀ x ∈ sbox, x < 256 := by decide
  unfold subByte
  rw [List.getD_eq_getElem?_getD]
  cases hg : sbox[b]? with
  | none => simp
  | some v => simpa using hs v (List.getElem?_mem hg)

/-- `xtime` stays inside a byte. -/
theorem xtime_lt (b : Nat) : xtime b < 256 := by
  unfold xtime
  split
  · exact Nat.xor_lt_two_pow (n := 8) (Nat.mod_lt _ (by omega)) (by omega)
  · exact Nat.mod_lt _ (by omega)

/-- `subWord`/`subBytesState` outputs are well-formed for any input. -/
theorem subWord_wf (w : Bytes) : BytesWF (subWord w) := by
  intro c hc
  obtain ⟨b, _, rfl⟩ := List.mem_map.mp hc
  exact subByte_lt b

/-- `shiftRows` of a well-formed state is well-formed. -/
theorem shiftRows_wf (s : Bytes) (h : BytesWF s) : BytesWF (shiftRows s) := by
  intro c hc
  obtain ⟨i, _, rfl⟩ := List.mem_map.mp hc
  exact getD_lt_of_wf s h _

/-- `mixColumn` of a well-formed column is well-formed. -/
theorem mixColumn_wf (a : Bytes) (h : BytesWF a) : BytesWF (mixColumn a) := by
  have h0 := getD_lt_of_wf a h 0
  have h1 := getD_lt_of_wf a h 1
  have h2 := getD_lt_of_wf a h 2
  have h3 := getD_lt_of_wf a h 3
  have hx : ∀ b : Nat, xtime b < 256 := xtime_lt
  intro c hc
  have hxor : ∀ u v : Nat, u < 256 → v < 256 → u ^^^ v < 256 := fun u v hu hv =>
    Nat.xor_lt_two_pow (n := 8) hu hv
  simp only [mixColumn, List.mem_cons, List.not_mem_nil, or_false] at hc
  rcases hc with rfl | rfl | rfl | rfl
  · exact hxor _ _ (hxor _ _ (hxor _ _ (hx _) (hxor _ _ (hx _) h1)) h2) h3
  · exact hxor _ _ (hxor _ _ (hxor _ _ h0 (hx _)) (hxor _ _ (hx _) h2)) h3
  · exact hxor _ _ (hxor _ _ (hxor _ _ h0 h1) (hx _)) (hxor _ _ (hx _) h3)
  · exact hxor _ _ (hxor _ _ (hxor _ _ (hxor _ _ (hx _) h0) h1) h2) (hx _)

/-- Taking a sub-range of a well-formed byte string keeps it well-formed. -/
theorem take_drop_wf (s : Bytes) (h : BytesWF s) (i j : Nat) :
    BytesWF ((s.drop i).take j) := fun c hc =>
  h c (List.mem_of_mem_drop (List.mem_of_mem_take hc))

/-- `mixColumns` of a well-formed state is well-formed. -/
theorem mixColumns_wf (s : Bytes) (h : BytesWF s) : BytesWF (mixColumns s) := by
  intro c hc
  simp only [mixColumns, List.mem_flatten, List.mem_map] at hc
  obtain ⟨l, ⟨i, _, rfl⟩, hcl⟩ := hc
  exact mixColumn_wf _ (take_drop_wf s h _ _) c hcl

/-- Entries of `rcon` (via `getD`) are bytes. -/
theorem rconD_lt (i : Nat) : rcon.getD i 0 < 256 := by
  have hs : ∀ x ∈ rcon, x < 256 := by decide
  rw [List.getD_eq_getElem?_getD]
  cases hg : rcon[i]? with
  | none => simp
  | some v => simpa using hs v (List.getElem?_mem hg)

/-- A `getD`-fetched word of a list of well-formed words is well-formed. -/
theorem getD_word_wf (ws : List Bytes) (h : ∀ w ∈ ws, BytesWF w) (i : Nat) :
    BytesWF (ws.getD i []) := by
  rw [List.getD_eq_getElem?_getD]
  cases hg : ws[i]? with
  | none => intro c hc; cases hc
  | some w => simpa using h w (List.getElem?_mem hg)

/-- One key-expansion step keeps all words well-formed. -/
theorem keyExpandStep_wf (ws : List Bytes) (h : ∀ w ∈ ws, BytesWF w) :
    ∀ w ∈ keyExpandStep ws, BytesWF w := by
  intro w hw
  simp only [keyExpandStep, List.mem_append, List.mem_singleton] at hw
  rcases hw with hw | rfl
  · exact h w hw
  · have hprev : BytesWF (ws.getD (ws.length - 1) []) := getD_word_wf ws h _
    have hbase : BytesWF (ws.getD (ws.length - 8) []) := getD_word_wf ws h _
    apply xorBytes_wf _ _ hbase
    split
    · apply xorBytes_wf _ _ (subWord_wf _)
      intro c hc
      simp only [List.mem_cons, List.not_mem_nil, or_false] at hc
      rcases hc with rfl | rfl | rfl | rfl
      · exact rconD_lt _
      all_goals omega
    · split
      · exact subWord_wf _
      · exact hprev

/-- All expanded key words of a well-formed key are well-formed. -/
theorem keyWords_wf (key : Bytes) (h : BytesWF key) :
    ∀ w ∈ keyWords key, BytesWF w := by
  unfold keyWords
  generalize hini : (List.range 8).map (fun i => (key.drop (4 * i)).take 4) = init
  have hinit : ∀ w ∈ init, BytesWF w := by
    rw [← hini]
    intro w hw
    obtain ⟨i, _, rfl⟩ := List.mem_map.mp hw
    intro c hc
    exact h c (List.mem_of_mem_drop (List.mem_of_mem_take hc))
  clear hini
  induction 52 with
  | zero => simpa using hinit
  | succ n ih =>
    rw [Function.iterate_succ_apply']
    exact keyExpandStep_wf _ ih

/-- Round keys of a well-formed key are well-formed. -/
theorem roundKey_wf (key : Bytes) (h : BytesWF key) (r : Nat) :
    BytesWF (roundKey key r) := by
  intro c hc
  simp only [roundKey, List.mem_flatten] at hc
  obtain ⟨w, hw, hcw⟩ := hc
  exact keyWords_wf key h w
    (List.mem_of_mem_drop (List.mem_of_mem_take hw)) c hcw

/-- The AES output is well-formed whenever the key is (for any block): the
last round's `shiftRows ∘ subBytes` always yields bytes. -/
theorem aesEncryptBlock_wf (key b : Bytes) (h : BytesWF key) :
    BytesWF (aesEncryptBlock key b) := by
  unfold aesEncryptBlock
  exact xorBytes_wf _ _ (shiftRows_wf _ (subWord_wf _)) (roundKey_wf key h 14)

/-! ### C2 development, part 5: AES output length and keystream length -/

/-- Each key-expansion step adds one word. -/
theorem keyExpandStep_length (ws : List Bytes) :
    (keyExpandStep ws).length = ws.length + 1 := by
  simp [keyExpandStep]

/-- There are 60 expanded key words. -/
theorem keyWords_length (key : Bytes) : (keyWords key).length = 60 := by
  unfold keyWords
  have : ∀ (n : Nat) (ws : List Bytes),
      (keyExpandStep^[n] ws).length = ws.length + n := by
    intro n
    induction n with
    | zero => simp
    | succ n ih =>
      intro ws
      rw [Function.iterate_succ_apply', keyExpandStep_length, ih]
      omega
  rw [this]
  simp

/-- All expanded key words of a 32-byte key have 4 bytes. -/
theorem keyWords_words_length (key : Bytes) (h : key.length = 32) :
    ∀ w ∈ keyWords key, w.length = 4 := by
  unfold keyWords
  have hstep : ∀ ws : List Bytes, 8 ≤ ws.length → (∀ w ∈ ws, w.length = 4) →
      ∀ w ∈ keyExpandStep ws, w.length = 4 := by
    intro ws hn hw w hmem
    simp only [keyExpandStep, List.mem_append, List.mem_singleton] at hmem
    rcases hmem with hmem | rfl
    · exact hw w hmem
    · have hidx : ∀ i, i < ws.length → (ws.getD i []).length = 4 := by
        intro i hi
        rw [List.getD_eq_getElem?_getD, List.getElem?_eq_getElem hi]
        exact hw _ (List.getElem_mem hi)
      have hprev : (ws.getD (ws.length - 1) []).length = 4 := hidx _ (by omega)
      have hbase : (ws.getD (ws.length - 8) []).length = 4 := hidx _ (by omega)
      have hrot : (rotWord (ws.getD (ws.length - 1) [])).length = 4 := by
        rw [rotWord, List.length_append, List.length_drop, List.length_take, hprev]
        omega
      rw [xorBytes, List.length_zipWith, hbase]
      split
      · rw [xorBytes, List.length_zipWith, subWord, List.length_map, hrot]
        simp
      · split
        · rw [subWord, List.length_map, hprev]
          omega
        · rw [hprev]
          omega
  have hiter : ∀ (n : Nat) (ws : List Bytes), 8 ≤ ws.length →
      (∀ w ∈ ws, w.length = 4) → ∀ w ∈ keyExpandStep^[n] ws, w.length = 4 := by
    intro n
    induction n with
    | zero => intro ws _ hw; simpa using hw
    | succ n ih =>
      intro ws hn hw
      rw [Function.iterate_succ_apply']
      refine hstep _ ?_ (ih ws hn hw)
      have : ∀ (m : Nat) (l : List Bytes),
          (keyExpandStep^[m] l).length = l.length + m := by
        intro m
        induction m with
        | zero => simp
        | succ m ihm =>
          intro l
          rw [Function.iterate_succ_apply', keyExpandStep_length, ihm]
          omega
      rw [this]
      omega
  refine hiter 52 _ (by simp) ?_
  intro w hw
  obtain ⟨i, hi, rfl⟩ := List.mem_map.mp hw
  simp only [List.mem_range] at hi
  simp only [List.length_take, List.length_drop, h]
  omega

/-- Flattening words of length 4 gives 4·count bytes. -/
theorem flatten_four_length (L : List Bytes) (h : ∀ w ∈ L, w.length = 4) :
    L.flatten.length = 4 * L.length := by
  induction L with
  | nil => simp
  | cons w L ih =>
    simp only [List.flatten_cons, List.length_append, List.length_cons]
    rw [h w (List.mem_cons_self w L), ih fun u hu => h u (List.mem_cons_of_mem w hu)]
    ring

/-- Round keys of a 32-byte key have 16 bytes. -/
theorem roundKey_length (key : Bytes) (h : key.length = 32) (r : Nat)
    (hr : r ≤ 14) : (roundKey key r).length = 16 := by
  unfold roundKey
  rw [flatten_four_length _ fun w hw => keyWords_words_length key h w
    (List.mem_of_mem_drop (List.mem_of_mem_take hw))]
  rw [List.length_take, List.length_drop, keyWords_length]
  omega

/-- `shiftRows` always yields 16 bytes. -/
theorem shiftRows_length (s : Bytes) : (shiftRows s).length = 16 := by
  simp [shiftRows]

/-- The AES output of a 32-byte key is a 16-byte block (for any input). -/
theorem aesEncryptBlock_length (key b : Bytes) (h : key.length = 32) :
    (aesEncryptBlock key b).length = 16 := by
  unfold aesEncryptBlock
  rw [show ∀ u v : Bytes, addRoundKey u v = xorBytes u v from fun _ _ => rfl]
  rw [xorBytes_length, shiftRows_length, roundKey_length key h 14 (by omega)]
  omega

/-- The CTR keystream for `n` blocks has `16·n` bytes. -/
theorem ctrKeystream_length (key : Bytes) (h : key.length = 32) (j0 n : Nat) :
    (ctrKeystream key j0 n).length = 16 * n := by
  unfold ctrKeystream
  induction n with
  | zero => simp
  | succ n ih =>
    rw [List.range_succ, List.map_append, List.flatten_append]
    simp only [List.length_append, ih]
    simp [aesEncryptBlock_length key _ h]
    omega

/-- The GCM keystream for a `len`-byte plaintext has exactly `len` bytes. -/
theorem gcmKeystream_length (key iv : Bytes) (len : Nat) (h : key.length = 32) :
    (gcmKeystream key iv len).length = len := by
  unfold gcmKeystream
  rw [List.length_take, ctrKeystream_length key h]
  have hdm := Nat.div_add_mod (len + 15) 16
  have hml : (len + 15) % 16 < 16 := Nat.mod_lt _ (by omega)
  omega

/-- The keystream is well-formed for a well-formed key. -/
theorem gcmKeystream_wf (key iv : Bytes) (len : Nat) (h : BytesWF key) :
    BytesWF (gcmKeystream key iv len) := by
  intro c hc
  unfold gcmKeystream ctrKeystream at hc
  have hc' := List.mem_of_mem_take hc
  simp only [List.mem_flatten, List.mem_map] at hc'
  obtain ⟨l, ⟨i, _, rfl⟩, hcl⟩ := hc'
  exact aesEncryptBlock_wf key _ h c hcl

/-! ### C2 development, part 6: the round trip -/

/-- Decrypting a fresh encryption returns the original token. -/
theorem decryptToken_encryptToken (key iv token : Bytes) (h32 : key.length = 32) :
    decryptToken key (encryptToken key iv token) = .ok token := by
  unfold encryptToken decryptToken
  simp only []
  rw [if_neg (by rw [natToBytes16, natToBytes_length]; omega)]
  rw [if_neg (by
    intro hne
    exact hne rfl)]
  have hks : (gcmKeystream key iv token.length).length = token.length :=
    gcmKeystream_length key iv token.length h32
  have hct : (xorBytes token (gcmKeystream key iv token.length)).length =
      token.length := by
    rw [xorBytes_length, hks]
    omega
  rw [hct]
  rw [xorBytes_cancel token _ (by omega)]

/-! ### C2 development, part 7: GHASH multiplication is linear and, for an
invertible subkey, injective -/

/-- Right shift distributes over xor. -/
theorem shiftRight_xor_one (a b : Nat) : (a ^^^ b) >>> 1 = a >>> 1 ^^^ b >>> 1 := by
  apply Nat.eq_of_testBit_eq
  intro j
  simp [Nat.testBit_shiftRight, Nat.testBit_xor]

/-- The `V` update of the GHASH multiplication loop is linear. -/
theorem gcmVstep_xor (a b : Nat) :
    (if (a ^^^ b).testBit 0 then ((a ^^^ b) >>> 1) ^^^ gcmR else (a ^^^ b) >>> 1) =
      (if a.testBit 0 then (a >>> 1) ^^^ gcmR else a >>> 1) ^^^
      (if b.testBit 0 then (b >>> 1) ^^^ gcmR else b >>> 1) := by
  rw [Nat.testBit_xor, shiftRight_xor_one]
  cases ha : a.testBit 0 <;> cases hb : b.testBit 0 <;> simp <;>
    first
    | ac_rfl
    | rw [show a >>> 1 ^^^ gcmR ^^^ (b >>> 1 ^^^ gcmR) =
          (a >>> 1 ^^^ b >>> 1) ^^^ (gcmR ^^^ gcmR) from by ac_rfl,
        Nat.xor_self, Nat.xor_zero]

/-- The GHASH multiplication loop is linear in `(z, v)`. -/
theorem gcmMulAux_xor (x : Nat) : ∀ (n z1 v1 z2 v2 : Nat),
    gcmMulAux x n (z1 ^^^ z2) (v1 ^^^ v2) =
      gcmMulAux x n z1 v1 ^^^ gcmMulAux x n z2 v2 := by
  intro n
  induction n with
  | zero => intro z1 v1 z2 v2; rfl
  | succ n ih =>
    intro z1 v1 z2 v2
    simp only [gcmMulAux]
    rw [gcmVstep_xor]
    rcases hx : x.testBit n with _ | _
    · simp only [hx, Bool.false_eq_true, if_false]
      exact ih z1 _ z2 _
    · simp only [hx, if_true]
      rw [show (z1 ^^^ z2) ^^^ (v1 ^^^ v2) = (z1 ^^^ v1) ^^^ (z2 ^^^ v2) from by ac_rfl]
      exact ih _ _ _ _

/-- The loop maps `(0, 0)` to 0. -/
theorem gcmMulAux_zero (x : Nat) : ∀ n, gcmMulAux x n 0 0 = 0 := by
  intro n
  induction n with
  | zero => rfl
  | succ n ih =>
    show gcmMulAux x n _ _ = 0
    simpa using ih

/-- `gcmMul x` is linear. -/
theorem gcmMul_xor (x a b : Nat) : gcmMul x (a ^^^ b) = gcmMul x a ^^^ gcmMul x b := by
  unfold gcmMul
  have := gcmMulAux_xor x 128 0 a 0 b
  simpa using this

/-- `gcmMul x 0 = 0`. -/
theorem gcmMul_zero (x : Nat) : gcmMul x 0 = 0 := gcmMulAux_zero x 128

/-- The reduction constant is a 128-bit value. -/
theorem gcmR_lt : gcmR < 2 ^ 128 := by
  unfold gcmR
  norm_num

/-- The loop stays below 2^128. -/
theorem gcmMulAux_lt (x : Nat) : ∀ (n z v : Nat), z < 2 ^ 128 → v < 2 ^ 128 →
    gcmMulAux x n z v < 2 ^ 128 := by
  intro n
  induction n with
  | zero => intro z v hz _; exact hz
  | succ n ih =>
    intro z v hz hv
    show gcmMulAux x n _ _ < 2 ^ 128
    have hv1 : v >>> 1 < 2 ^ 128 := by
      rw [Nat.shiftRight_one]
      exact Nat.lt_of_le_of_lt (Nat.div_le_self v 2) hv
    apply ih
    · split
      · exact Nat.xor_lt_two_pow hz hv
      · exact hz
    · split
      · exact Nat.xor_lt_two_pow hv1 gcmR_lt
      · exact hv1

/-- `gcmMul` maps 128-bit values to 128-bit values. -/
theorem gcmMul_lt (x y : Nat) (h : y < 2 ^ 128) : gcmMul x y < 2 ^ 128 :=
  gcmMulAux_lt x 128 0 y (by positivity) h

/-- Xor with a disjoint high bit is addition. -/
theorem two_pow_xor_add (n a : Nat) (h : a < 2 ^ n) : 2 ^ n ^^^ a = 2 ^ n + a := by
  apply Nat.eq_of_testBit_eq
  intro j
  rcases Nat.lt_trichotomy j n with hj | rfl | hj
  · rw [Nat.testBit_xor, Nat.testBit_two_pow_of_ne (by omega),
      Nat.testBit_two_pow_add_gt hj]
    simp
  · rw [Nat.testBit_xor, Nat.testBit_two_pow_self, Nat.testBit_two_pow_add_eq,
      Nat.testBit_lt_two_pow h]
    rfl
  · have h2 : 2 ^ n + a < 2 ^ j := by
      have hlt : 2 ^ n + a < 2 ^ (n + 1) := by
        rw [Nat.pow_succ]
        omega
      exact Nat.lt_of_lt_of_le hlt (Nat.pow_le_pow_right (by omega) (by omega))
    have haj : a < 2 ^ j :=
      Nat.lt_of_lt_of_le h (Nat.pow_le_pow_right (by omega) (by omega))
    rw [Nat.testBit_xor, Nat.testBit_two_pow_of_ne (by omega),
      Nat.testBit_lt_two_pow h2, Nat.testBit_lt_two_pow haj]
    rfl

/-- A linear map that fixes 0 and the first 128 powers of two is the
identity below 2^128. -/
theorem linear_id_of_basis (f : Nat → Nat)
    (hxor : ∀ a b, f (a ^^^ b) = f a ^^^ f b) (h0 : f 0 = 0)
    (hbasis : ∀ i < 128, f (2 ^ i) = 2 ^ i) :
    ∀ n, n ≤ 128 → ∀ y < 2 ^ n, f y = y := by
  intro n
  induction n with
  | zero =>
    intro _ y hy
    interval_cases y
    exact h0
  | succ n ih =>
    intro hn y hy
    by_cases hsmall : y < 2 ^ n
    · exact ih (by omega) y hsmall
    · have ha : y - 2 ^ n < 2 ^ n := by
        have : y < 2 ^ (n + 1) := hy
        rw [Nat.pow_succ] at this
        omega
      have hdecomp : y = 2 ^ n ^^^ (y - 2 ^ n) := by
        rw [two_pow_xor_add n _ ha]
        omega
      rw [hdecomp, hxor, hbasis n (by omega), ih (by omega) _ ha, ← hdecomp]

/-- If some `Hinv` undoes multiplication by `H` on the 128 basis vectors,
then multiplication by `H` is injective on 128-bit values. -/
theorem gcmMul_inj_of_basis (H Hinv : Nat)
    (hbasis : ∀ i < 128, gcmMul Hinv (gcmMul H (2 ^ i)) = 2 ^ i) :
    ∀ a b, a < 2 ^ 128 → b < 2 ^ 128 → gcmMul H a = gcmMul H b → a = b := by
  intro a b ha hb heq
  have hxor : ∀ u v, gcmMul Hinv (gcmMul H (u ^^^ v)) =
      gcmMul Hinv (gcmMul H u) ^^^ gcmMul Hinv (gcmMul H v) := by
    intro u v
    rw [gcmMul_xor, gcmMul_xor]
  have h0 : gcmMul Hinv (gcmMul H 0) = 0 := by
    rw [gcmMul_zero, gcmMul_zero]
  have hida := linear_id_of_basis (fun y => gcmMul Hinv (gcmMul H y))
    hxor h0 hbasis 128 (Nat.le_refl _) a ha
  have hidb := linear_id_of_basis (fun y => gcmMul Hinv (gcmMul H y))
    hxor h0 hbasis 128 (Nat.le_refl _) b hb
  simp only [] at hida hidb
  rw [← hida, ← hidb, heq]

/-! ### C2 development, part 8: GHASH separates a single tampered byte -/

/-- The GHASH fold stays below 2^128. -/
theorem ghashFold_lt (h : Nat) : ∀ (bs : List Nat) (y : Nat), y < 2 ^ 128 →
    (∀ x ∈ bs, x < 2 ^ 128) →
    bs.foldl (fun y x => gcmMul h (y ^^^ x)) y < 2 ^ 128 := by
  intro bs
  induction bs with
  | nil => intro y hy _; exact hy
  | cons x bs ih =>
    intro y hy hx
    simp only [List.foldl_cons]
    exact ih _ (gcmMul_lt _ _ (Nat.xor_lt_two_pow hy (hx x (List.mem_cons_self x bs))))
      fun u hu => hx u (List.mem_cons_of_mem x hu)

/-- With an injective subkey, the GHASH fold is injective in its
accumulator. -/
theorem ghashFold_ne (h : Nat)
    (hInj : ∀ a b, a < 2 ^ 128 → b < 2 ^ 128 → gcmMul h a = gcmMul h b → a = b) :
    ∀ (bs : List Nat) (y y' : Nat), y < 2 ^ 128 → y' < 2 ^ 128 →
    (∀ x ∈ bs, x < 2 ^ 128) → y ≠ y' →
    bs.foldl (fun y x => gcmMul h (y ^^^ x)) y ≠
      bs.foldl (fun y x => gcmMul h (y ^^^ x)) y' := by
  intro bs
  induction bs with
  | nil => intro y y' _ _ _ hne; exact hne
  | cons x bs ih =>
    intro y y' hy hy' hx hne
    simp only [List.foldl_cons]
    have hxlt := hx x (List.mem_cons_self x bs)
    refine ih _ _ (gcmMul_lt _ _ (Nat.xor_lt_two_pow hy hxlt))
      (gcmMul_lt _ _ (Nat.xor_lt_two_pow hy' hxlt))
      (fun u hu => hx u (List.mem_cons_of_mem x hu)) ?_
    intro heq
    exact hne (Nat.xor_left_inj.mp
      (hInj _ _ (Nat.xor_lt_two_pow hy hxlt) (Nat.xor_lt_two_pow hy' hxlt) heq))

/-- Replacing an entry by a byte keeps a byte string well-formed. -/
theorem set_wf (l : Bytes) (j v : Nat) (hl : BytesWF l) (hv : v < 256) :
    BytesWF (l.set j v) := by
  intro c hc
  rcases List.mem_or_eq_of_mem_set hc with hc | rfl
  · exact hl c hc
  · exact hv

/-- `getD` through `drop`. -/
theorem getD_drop (l : Bytes) : ∀ (k i : Nat), (l.drop k).getD i 0 = l.getD (k + i) 0 := by
  induction l with
  | nil => intro k i; simp
  | cons b l ih =>
    intro k i
    cases k with
    | zero => simp
    | succ k =>
      rw [List.drop_succ_cons, ih k i,
        show k + 1 + i = (k + i) + 1 from by omega, List.getD_cons_succ]

/-- `getD` through `take` for an index inside the prefix. -/
theorem getD_take (l : Bytes) (n i : Nat) (h : i < n) :
    (l.take n).getD i 0 = l.getD i 0 := by
  rw [List.getD_eq_getElem?_getD, List.getD_eq_getElem?_getD,
    List.getElem?_take_of_lt h]

/-- A zero-padded chunk distinguishes a changed byte. -/
theorem padBlock_set_ne (ch : Bytes) (j b' : Nat) (hj : j < ch.length)
    (hwf : BytesWF ch) (hb : b' < 256) (hne : b' ≠ ch.getD j 0) :
    padBlock (ch.set j b') ≠ padBlock ch := by
  intro heq
  unfold padBlock at heq
  rw [List.length_set] at heq
  have hwp : BytesWF (ch ++ List.replicate (16 - ch.length) 0) := by
    intro c hc
    rcases List.mem_append.mp hc with hc | hc
    · exact hwf c hc
    · rw [List.eq_of_mem_replicate hc]; omega
  have hwp' : BytesWF (ch.set j b' ++ List.replicate (16 - ch.length) 0) := by
    intro c hc
    rcases List.mem_append.mp hc with hc | hc
    · exact set_wf ch j b' hwf hb c hc
    · rw [List.eq_of_mem_replicate hc]; omega
  have hlen : (ch.set j b' ++ List.replicate (16 - ch.length) 0).length =
      (ch ++ List.replicate (16 - ch.length) 0).length := by
    simp
  have hlists := beVal_inj _ _ hwp' hwp hlen heq
  have hset : ch.set j b' ++ List.replicate (16 - ch.length) 0 =
      (ch ++ List.replicate (16 - ch.length) 0).set j b' := by
    rw [List.set_append_left _ _ hj]
  rw [hset] at hlists
  have hjlen : j < (ch ++ List.replicate (16 - ch.length) 0).length := by
    rw [List.length_append]; omega
  have hat := congrArg (fun l => l.getD j 0) hlists
  simp only [List.getD_eq_getElem?_getD] at hat
  rw [List.getElem?_set_self (by simpa using hjlen),
    List.getElem?_append_left hj] at hat
  apply hne
  rw [List.getD_eq_getElem?_getD]
  simpa using hat

/-- Tampering with one byte changes the GHASH of the padded byte string,
whatever equal-for-both blocks follow (the length block). -/
theorem ghash_set_ne (h : Nat)
    (hInj : ∀ a b, a < 2 ^ 128 → b < 2 ^ 128 → gcmMul h a = gcmMul h b → a = b) :
    ∀ (n : Nat) (bs : Bytes) (j b' : Nat) (rest : List Nat) (y : Nat),
    bs.length ≤ n → j < bs.length → BytesWF bs → b' < 256 → b' ≠ bs.getD j 0 →
    (∀ x ∈ rest, x < 2 ^ 128) → y < 2 ^ 128 →
    (bytesToBlocks (bs.set j b') ++ rest).foldl (fun y x => gcmMul h (y ^^^ x)) y ≠
      (bytesToBlocks bs ++ rest).foldl (fun y x => gcmMul h (y ^^^ x)) y := by
  intro n
  induction n with
  | zero =>
    intro bs j b' rest y hn hj _ _ _ _ _
    omega
  | succ n ih =>
    intro bs j b' rest y hn hj hwf hb hne hrest hy
    cases bs with
    | nil => simp at hj
    | cons b tail =>
      have hwtail : BytesWF tail := fun c hc => hwf c (List.mem_cons_of_mem b hc)
      by_cases hj16 : j < 16
      · -- the tampered byte lands in the first chunk
        have hchunk : chunk16 ((b :: tail).set j b') =
            ((b :: tail.take 15).set j b') :: chunk16 (tail.drop 15) := by
          cases j with
          | zero => rw [List.set_cons_zero, chunk16_cons, List.set_cons_zero]
          | succ jj =>
            rw [List.set_cons_succ, chunk16_cons, List.set_take,
              List.drop_set, if_pos (by omega), List.set_cons_succ]
        have hjch : j < (b :: tail.take 15).length := by
          simp only [List.length_cons, List.length_take, List.length_cons] at hj ⊢
          omega
        have hchwf : BytesWF (b :: tail.take 15) := by
          intro c hc
          rcases List.mem_cons.mp hc with rfl | hc
          · exact hwf c (List.mem_cons_self c tail)
          · exact hwtail c (List.mem_of_mem_take hc)
        have hgetD : (b :: tail.take 15).getD j 0 = (b :: tail).getD j 0 := by
          cases j with
          | zero => rfl
          | succ jj =>
            rw [List.getD_cons_succ, List.getD_cons_succ, getD_take]
            omega
        have hBne : padBlock ((b :: tail.take 15).set j b') ≠
            padBlock (b :: tail.take 15) :=
          padBlock_set_ne _ j b' hjch hchwf hb (hgetD ▸ hne)
        rw [show bytesToBlocks ((b :: tail).set j b') =
            padBlock ((b :: tail.take 15).set j b') ::
              bytesToBlocks (tail.drop 15) from by
          rw [bytesToBlocks, hchunk]; rfl]
        rw [show bytesToBlocks (b :: tail) =
            padBlock (b :: tail.take 15) :: bytesToBlocks (tail.drop 15) from by
          rw [bytesToBlocks, chunk16_cons]; rfl]
        simp only [List.cons_append, List.foldl_cons]
        have hch16 : (b :: tail.take 15).length ≤ 16 := by
          simp only [List.length_cons, List.length_take]
          omega
        have hBlt : padBlock (b :: tail.take 15) < 2 ^ 128 := by
          have := bytesToBlocks_lt (b :: tail) hwf
          apply this
          rw [bytesToBlocks, chunk16_cons]
          exact List.mem_cons_self _ _
        have hBlt' : padBlock ((b :: tail.take 15).set j b') < 2 ^ 128 := by
          have := bytesToBlocks_lt ((b :: tail).set j b')
            (set_wf _ j b' hwf hb)
          apply this
          rw [bytesToBlocks, hchunk]
          exact List.mem_cons_self _ _
        have hblocks : ∀ x ∈ bytesToBlocks (tail.drop 15) ++ rest, x < 2 ^ 128 := by
          intro x hx
          rcases List.mem_append.mp hx with hx | hx
          · exact bytesToBlocks_lt _ (fun c hc => hwtail c (List.mem_of_mem_drop hc)) x hx
          · exact hrest x hx
        apply ghashFold_ne h hInj _ _ _
          (gcmMul_lt _ _ (Nat.xor_lt_two_pow hy hBlt'))
          (gcmMul_lt _ _ (Nat.xor_lt_two_pow hy hBlt))
          hblocks
        intro heq
        exact hBne (Nat.xor_right_inj.mp
          (hInj _ _ (Nat.xor_lt_two_pow hy hBlt') (Nat.xor_lt_two_pow hy hBlt) heq))
      · -- the tampered byte lands in a later chunk
        cases j with
        | zero => omega
        | succ jj =>
          have hchunk : chunk16 ((b :: tail).set (jj + 1) b') =
              (b :: tail.take 15) :: chunk16 ((tail.drop 15).set (jj - 15) b') := by
            rw [List.set_cons_succ, chunk16_cons, List.set_take,
              List.set_eq_of_length_le (by
                rw [List.length_take]
                omega),
              List.drop_set, if_neg (by omega)]
          rw [show bytesToBlocks ((b :: tail).set (jj + 1) b') =
              padBlock (b :: tail.take 15) ::
                bytesToBlocks ((tail.drop 15).set (jj - 15) b') from by
            rw [bytesToBlocks, hchunk]; rfl]
          rw [show bytesToBlocks (b :: tail) =
              padBlock (b :: tail.take 15) :: bytesToBlocks (tail.drop 15) from by
            rw [bytesToBlocks, chunk16_cons]; rfl]
          simp only [List.cons_append, List.foldl_cons]
          have hBlt : padBlock (b :: tail.take 15) < 2 ^ 128 := by
            have := bytesToBlocks_lt (b :: tail) hwf
            apply this
            rw [bytesToBlocks, chunk16_cons]
            exact List.mem_cons_self _ _
          refine ih (tail.drop 15) (jj - 15) b' rest _ ?_ ?_
            (fun c hc => hwtail c (List.mem_of_mem_drop hc)) hb ?_ hrest
            (gcmMul_lt _ _ (Nat.xor_lt_two_pow hy hBlt))
          · simp only [List.length_drop, List.length_cons] at hn ⊢
            omega
          · simp only [List.length_drop, List.length_cons] at hj ⊢
            omega
          · rw [getD_drop tail 15 (jj - 15),
              show 15 + (jj - 15) = jj from by omega]
            rw [List.getD_cons_succ] at hne
            exact hne

/-! ### C2 development, part 9: tampering defeats decryption -/

/-- Flipping one byte with a non-zero mask changes the byte string. -/
theorem flipByteAt_ne (l : Bytes) (j m : Nat) (hj : j < l.length) (hm : m ≠ 0) :
    flipByteAt l j m ≠ l := by
  intro heq
  have hat := congrArg (fun t => t.getD j 0) heq
  simp only [flipByteAt, List.getD_eq_getElem?_getD] at hat
  rw [List.getElem?_set_self (by simpa using hj)] at hat
  simp only [Option.getD_some] at hat
  apply hm
  calc m = l[j]?.getD 0 ^^^ (l[j]?.getD 0 ^^^ m) := (Nat.xor_cancel_left _ _).symm
    _ = l[j]?.getD 0 ^^^ l[j]?.getD 0 := by rw [hat]
    _ = 0 := Nat.xor_self _

set_option maxHeartbeats 1000000 in
/-- A flipped auth tag makes `decryptToken` fail. -/
theorem decryptToken_tag_flip (key iv token : Bytes) (j m : Nat)
    (hm : m ≠ 0) (hj : j < 16) :
    decryptToken key
      { encryptToken key iv token with
        authTag := flipByteAt (encryptToken key iv token).authTag j m } =
      .error "Failed to decrypt token: Unsupported state or unable to authenticate data" := by
  have htag : (encryptToken key iv token).authTag =
      natToBytes16 (gcmTag key iv (encryptToken key iv token).ciphertext) := rfl
  have hlen : (encryptToken key iv token).authTag.length = 16 := by
    rw [htag, natToBytes16, natToBytes_length]
  unfold decryptToken
  rw [if_neg (by
    simp only [flipByteAt, List.length_set]
    omega)]
  rw [if_pos (by
    show flipByteAt (encryptToken key iv token).authTag j m ≠
      natToBytes16 (gcmTag key (encryptToken key iv token).iv
        (encryptToken key iv token).ciphertext)
    rw [show natToBytes16 (gcmTag key (encryptToken key iv token).iv
        (encryptToken key iv token).ciphertext) =
      (encryptToken key iv token).authTag from rfl]
    exact flipByteAt_ne _ j m (by omega) hm)]

/-- The GCM tag is a 128-bit value (32-byte key). -/
theorem gcmTag_lt (key iv ct : Bytes) (h32 : key.length = 32)
    (hwk : BytesWF key) (hwc : BytesWF ct) (hlen : 8 * ct.length < 2 ^ 128) :
    gcmTag key iv ct < 2 ^ 128 := by
  unfold gcmTag ghash
  apply Nat.xor_lt_two_pow
  · apply ghashFold_lt _ _ _ (by positivity)
    intro x hx
    rcases List.mem_append.mp hx with hx | hx
    · exact bytesToBlocks_lt ct hwc x hx
    · rw [List.mem_singleton.mp hx]
      exact hlen
  · have hwf := aesEncryptBlock_wf key (natToBytes16 (gcmJ0 key iv)) hwk
    have := beVal_lt _ hwf
    rw [aesEncryptBlock_length key _ h32] at this
    calc beVal _ < 256 ^ 16 := this
      _ = 2 ^ 128 := by norm_num

/-- A flipped ciphertext byte makes `decryptToken` fail, provided the GHASH
subkey acts injectively (true for every key whose subkey is invertible in
GF(2^128)). -/
theorem decryptToken_ct_flip (key iv token : Bytes) (j m : Nat)
    (h32 : key.length = 32) (hwk : BytesWF key) (hwt : BytesWF token)
    (hm : m ≠ 0) (hm256 : m < 256) (hj : j < token.length)
    (hlen64 : token.length < 2 ^ 64)
    (hInj : ∀ a b, a < 2 ^ 128 → b < 2 ^ 128 →
      gcmMul (hashKeyOf key) a = gcmMul (hashKeyOf key) b → a = b) :
    decryptToken key
      { encryptToken key iv token with
        ciphertext := flipByteAt (encryptToken key iv token).ciphertext j m } =
      .error "Failed to decrypt token: Unsupported state or unable to authenticate data" := by
  have hkslen : (gcmKeystream key iv token.length).length = token.length :=
    gcmKeystream_length key iv token.length h32
  have hct : (encryptToken key iv token).ciphertext =
      xorBytes token (gcmKeystream key iv token.length) := rfl
  have hctlen : (encryptToken key iv token).ciphertext.length = token.length := by
    rw [hct, xorBytes_length, hkslen]
    omega
  have hctwf : BytesWF (encryptToken key iv token).ciphertext := by
    rw [hct]
    exact xorBytes_wf _ _ hwt (gcmKeystream_wf key iv token.length hwk)
  set ct := (encryptToken key iv token).ciphertext with hctdef
  have hblen : 8 * ct.length < 2 ^ 128 := by
    rw [hctlen]
    calc 8 * token.length < 8 * 2 ^ 64 := by omega
      _ < 2 ^ 128 := by norm_num
  have hb' : ct.getD j 0 ^^^ m < 256 :=
    Nat.xor_lt_two_pow (n := 8) (getD_lt_of_wf ct hctwf j) hm256
  have hbne : ct.getD j 0 ^^^ m ≠ ct.getD j 0 := by
    intro hx
    apply hm
    calc m = ct.getD j 0 ^^^ (ct.getD j 0 ^^^ m) := (Nat.xor_cancel_left _ _).symm
      _ = ct.getD j 0 ^^^ ct.getD j 0 := by rw [hx]
      _ = 0 := Nat.xor_self _
  have hghash_ne : ghash (hashKeyOf key)
      (bytesToBlocks (flipByteAt ct j m) ++ [8 * (flipByteAt ct j m).length]) ≠
      ghash (hashKeyOf key) (bytesToBlocks ct ++ [8 * ct.length]) := by
    have hflen : (flipByteAt ct j m).length = ct.length := by
      simp [flipByteAt]
    rw [hflen]
    unfold ghash
    exact ghash_set_ne (hashKeyOf key) hInj ct.length ct j (ct.getD j 0 ^^^ m)
      [8 * ct.length] 0 (Nat.le_refl _) (by omega) hctwf hb' hbne
      (by
        intro x hx
        rw [List.mem_singleton.mp hx]
        exact hblen)
      (by positivity)
  have htag_ne : gcmTag key iv (flipByteAt ct j m) ≠ gcmTag key iv ct := by
    unfold gcmTag
    intro hx
    exact hghash_ne (Nat.xor_left_inj.mp hx)
  unfold decryptToken
  rw [if_neg (by
    show ¬ (encryptToken key iv token).authTag.length ≠ 16
    rw [show (encryptToken key iv token).authTag =
      natToBytes16 (gcmTag key iv ct) from rfl, natToBytes16, natToBytes_length]
    omega)]
  rw [if_pos (by
    show (encryptToken key iv token).authTag ≠
      natToBytes16 (gcmTag key iv (flipByteAt ct j m))
    rw [show (encryptToken key iv token).authTag =
      natToBytes16 (gcmTag key iv ct) from rfl]
    intro hx
    have hflen : (flipByteAt ct j m).length = ct.length := by simp [flipByteAt]
    have hfwf : BytesWF (flipByteAt ct j m) := set_wf ct j _ hctwf hb'
    have htlt := gcmTag_lt key iv ct h32 hwk hctwf hblen
    have htlt' := gcmTag_lt key iv (flipByteAt ct j m) h32 hwk hfwf
      (by rw [hflen]; exact hblen)
    exact htag_ne (natToBytes16_inj _ _ htlt' htlt hx.symm))]

/-! ### C2 — the claim -/

/-- C2: decrypting a fresh encryption returns the token unchanged; flipping
any byte of the auth tag makes decryption fail with the decryption error;
and flipping any byte of the ciphertext body makes decryption fail as well
(given that multiplication by the key's GHASH subkey is injective on 128-bit
values, which holds for every key whose subkey is invertible in GF(2^128) —
the witness verifies it for a concrete key).  Decryption never silently
returns a different plaintext: any tag mismatch is an error. -/
theorem claim_C2_roundtrip_and_tamper (key iv token : Bytes) (j m : Nat) :
    (key.length = 32 → decryptToken key (encryptToken key iv token) = .ok token) ∧
    (m ≠ 0 → j < 16 →
      decryptToken key
        { encryptToken key iv token with
          authTag := flipByteAt (encryptToken key iv token).authTag j m } =
        .error "Failed to decrypt token: Unsupported state or unable to authenticate data") ∧
    (key.length = 32 → BytesWF key → BytesWF token → m ≠ 0 → m < 256 →
      j < token.length → token.length < 2 ^ 64 →
      (∀ a b, a < 2 ^ 128 → b < 2 ^ 128 →
        gcmMul (hashKeyOf key) a = gcmMul (hashKeyOf key) b → a = b) →
      decryptToken key
        { encryptToken key iv token with
          ciphertext := flipByteAt (encryptToken key iv token).ciphertext j m } =
        .error "Failed to decrypt token: Unsupported state or unable to authenticate data") :=
  ⟨fun h32 => decryptToken_encryptToken key iv token h32,
   fun hm hj => decryptToken_tag_flip key iv token j m hm hj,
   fun h32 hwk hwt hm hm256 hj hlen hInj =>
     decryptToken_ct_flip key iv token j m h32 hwk hwt hm hm256 hj hlen hInj⟩

set_option maxRecDepth 100000 in
/-- The GHASH subkey of the concrete key 00 01 … 1f. -/
theorem hashKeyOf_key0 : hashKeyOf key0 = 322420880160191610720107348101138642816 := by
  decide

set_option maxRecDepth 100000 in
set_option maxHeartbeats 4000000 in
/-- `260140898477487597717416671090456809503` is the GF(2^128) inverse of
`key0`'s GHASH subkey: multiplying by it undoes `gcmMul` on all 128 basis
vectors. -/
theorem hashKey0_basis_inverse :
    ∀ i < 128, gcmMul 260140898477487597717416671090456809503
      (gcmMul 322420880160191610720107348101138642816 (2 ^ i)) = 2 ^ i := by
  decide

set_option maxRecDepth 100000 in
/-- Witness for C2 at `key0`/`iv0`/`token0`: round trip, a tag flipped in
byte 0, and a ciphertext flipped in byte 0 (with the subkey's injectivity
established from the concrete inverse). -/
theorem claim_C2_witness :
    decryptToken key0 (encryptToken key0 iv0 token0) = .ok token0 ∧
    decryptToken key0
      { encryptToken key0 iv0 token0 with
        authTag := flipByteAt (encryptToken key0 iv0 token0).authTag 0 1 } =
      .error "Failed to decrypt token: Unsupported state or unable to authenticate data" ∧
    decryptToken key0
      { encryptToken key0 iv0 token0 with
        ciphertext := flipByteAt (encryptToken key0 iv0 token0).ciphertext 0 1 } =
      .error "Failed to decrypt token: Unsupported state or unable to authenticate data" :=
  ⟨(claim_C2_roundtrip_and_tamper key0 iv0 token0 0 1).1 (by decide),
   (claim_C2_roundtrip_and_tamper key0 iv0 token0 0 1).2.1 (by decide) (by decide),
   (claim_C2_roundtrip_and_tamper key0 iv0 token0 0 1).2.2 (by decide) (by decide)
     (by decide) (by decide) (by decide) (by decide) (by decide)
     (fun a b ha hb heq =>
       gcmMul_inj_of_basis _ 260140898477487597717416671090456809503
         (by
           intro i hi
           have := hashKey0_basis_inverse i hi
           rwa [← hashKeyOf_key0] at this)
         a b ha hb heq)⟩

end OuraMCP
